import Mathlib

/-!
# Verification of the jaXiv LaTeX Document Model & Project Analysis Engine

Shallow embedding of `src/backend/utils/latex_parser.py`,
`src/backend/utils/latex_project_analyzer.py` and
`src/backend/utils/latex_validator.py`.

Conventions of the embedding:

* Python strings are modelled as `List Char`; positions are `Nat` indices of
  code points (Python string indices are code points as well).
* Each `re` pattern of the source is embedded as a hand-rolled matcher with
  the exact semantics of the pattern on which `re.finditer`/`re.search` is
  called: matchers try a match at the current position and report the match
  length; the generic driver `scanFrom` replays `finditer` (scan positions
  left to right, continue scanning at the end of each non-empty match).
  Greedy/lazy quantifier and alternation/backtracking behaviour of each
  pattern is reproduced case by case; a comment at each matcher records the
  original pattern.
* Python `dict`s (insertion ordered) are association lists; Python `set`s
  (iteration order unspecified) are modelled as duplicate-free lists in
  first-insertion order, a deterministic refinement that only fixes the
  order of emitted issues, never their multiset.
* File-system access (`glob`, `open`) is out of scope: the analyzer is
  embedded as a pure pipeline `analyze_project_pure` over the list of
  `(path, contents)` pairs that the I/O layer would have produced, in
  discovery order.  Reading never fails in the pure model.
* Fallible code is `Option`-valued: `validate_project` is `none` exactly when
  the Python code would raise (`files[main_file]` with a stale main file),
  and the custom-definition scanner is `none` when Python's `int()` would
  raise on the body of a `\def`.
-/

/-- Python whitespace (the characters stripped by `str.strip()` and matched
by `\s` in `re` for `str` patterns): the ASCII whitespace characters plus the
common Unicode space characters. -/
def pyWs (c : Char) : Bool :=
  c = ' ' || c = '\t' || c = '\n' || c = '\r' || c = '\x0b' || c = '\x0c' ||
  c = '\x85' || c = '\u00a0' || c = '\u1680' ||
  ('\u2000' ≤ c && c ≤ '\u200a') ||
  c = '\u2028' || c = '\u2029' || c = '\u202f' || c = '\u205f' || c = '\u3000'

/-- Truthiness of `s.strip()`: the list holds at least one non-whitespace
character. -/
def hasNonWs (l : List Char) : Bool := l.any (fun c => !pyWs c)

/-- Python slice `l[a:b]` for `0 ≤ a ≤ b` (out-of-range indices clamp). -/
def pySlice (l : List Char) (a b : Nat) : List Char := (l.drop a).take (b - a)

/-- Index of the first occurrence of `c`, if any. -/
def idxOfChar (c : Char) : List Char → Option Nat
  | [] => none
  | x :: xs => if x = c then some 0 else (idxOfChar c xs).map (· + 1)

/-- Index of the first position where `pat` occurs as a contiguous sublist,
if any. -/
def idxOfSub (pat : List Char) : List Char → Option Nat
  | [] => if pat = [] then some 0 else none
  | x :: xs =>
    if pat.isPrefixOf (x :: xs) then some 0 else (idxOfSub pat xs).map (· + 1)

/-- Embedding of `needle in hay` on strings (also `re.search` of a literal
pattern). -/
def containsSub (hay pat : List Char) : Bool := (idxOfSub pat hay).isSome

/-- Python `s.split(sep)` for a single-character separator. -/
def splitOnChar (sep : Char) : List Char → List (List Char)
  | [] => [[]]
  | c :: rest =>
    if c = sep then [] :: splitOnChar sep rest
    else
      match splitOnChar sep rest with
      | [] => [[c]]
      | l :: ls => (c :: l) :: ls

/-- Python `s.split('\n')`. -/
def splitOnNl : List Char → List (List Char) := splitOnChar '\n'

/-- Python `s.strip()`. -/
def pyStrip (l : List Char) : List Char :=
  ((l.dropWhile pyWs).reverse.dropWhile pyWs).reverse

/-- Python `s.endswith(t)`. -/
def pyEndsWith (l suf : List Char) : Bool := suf.isSuffixOf l

/-- Python `int(s)` on a string: optional surrounding whitespace, an optional
sign, then at least one ASCII digit (underscore digit grouping and non-ASCII
digits are not modelled; the analyzed sources never produce them).  `none`
models the `ValueError` that `int()` raises otherwise. -/
def pyInt (s : List Char) : Option Int :=
  let t := pyStrip s
  let p : Int × List Char :=
    match t with
    | '-' :: rest => (-1, rest)
    | '+' :: rest => (1, rest)
    | _ => (1, t)
  if p.2 ≠ [] ∧ p.2.all Char.isDigit then
    some (p.1 * Int.ofNat (p.2.foldl (fun n c => n * 10 + (c.toNat - '0'.toNat)) 0))
  else none

/-- Python `set.add` on a set modelled as a duplicate-free list in
first-insertion order. -/
def setAdd (l : List String) (x : String) : List String :=
  if x ∈ l then l else l ++ [x]

namespace LatexParser

/-- Embedding of `LatexElementType` of `latex_parser.py`. -/
inductive LatexElementType
  | TEXT | MATH_INLINE | MATH_DISPLAY | COMMAND | ENVIRONMENT
  | COMMENT | CITATION | REFERENCE | LABEL
deriving DecidableEq, Repr

/-- Embedding of `LatexElement` of `latex_parser.py`; `metadata` is the
string-keyed dict (`None` is post-initialised to the empty dict, hence the
default is just the empty association list here). -/
structure LatexElement where
  type : LatexElementType
  content : List Char
  start_pos : Nat
  end_pos : Nat
  should_translate : Bool := true
  metadata : List (String × List Char) := []
deriving DecidableEq, Repr

/-- Embedding of `NON_TRANSLATABLE_COMMANDS` of `latex_parser.py`. -/
def NON_TRANSLATABLE_COMMANDS : List String :=
  ["cite", "ref", "label", "includegraphics", "input", "include",
   "documentclass", "usepackage", "newcommand", "renewcommand",
   "def", "let", "url", "href", "hyperref", "pageref", "autoref",
   "nameref", "eqref", "cref", "Cref"]

/-- Embedding of `NON_TRANSLATABLE_ENVIRONMENTS` of `latex_parser.py`. -/
def NON_TRANSLATABLE_ENVIRONMENTS : List String :=
  ["equation", "align", "gather", "multline", "flalign", "alignat",
   "eqnarray", "displaymath", "verbatim", "lstlisting", "minted",
   "algorithm", "algorithmic", "tikzpicture", "pgfpicture"]

/-- Embedding of `SECTION_COMMANDS` of `latex_parser.py`. -/
def SECTION_COMMANDS : List String :=
  ["part", "chapter", "section", "subsection",
   "subsubsection", "paragraph", "subparagraph"]

/-! ## The matchers (one per compiled pattern of `_compile_patterns`)

Each matcher receives the suffix of the source starting at the current
position (the comment matcher also receives the character just before it,
for its lookbehind) and returns the length of the match anchored at that
very position, as `finditer` tries it, together with the captured data the
parser later reads off the match object. -/

/-- Matcher for `\$\$([^$]+)\$\$|\\\[(.*?)\\\]` (DOTALL).  The first
alternative is tried first; its `[^$]+` is forced to end at the first
following `$` and the closing `$$` must follow there; the second
alternative's lazy `.*?` ends at the first occurrence of `\]`. -/
def tryMathDisplay : List Char → Option Nat
  | '$' :: '$' :: rest =>
    (match idxOfChar '$' rest with
     | some k =>
       if 1 ≤ k ∧ rest.get? (k + 1) = some '$' then some (k + 4) else none
     | none => none)
  | '\\' :: '[' :: rest =>
    (match idxOfSub ['\\', ']'] rest with
     | some j => some (j + 4)
     | none => none)
  | _ => none

/-- Matcher for `\$([^$]+)\$`: the `[^$]+` is forced to end at the first
following `$`, which must exist and leave a non-empty body. -/
def tryMathInline : List Char → Option Nat
  | '$' :: rest =>
    (match idxOfChar '$' rest with
     | some k => if 1 ≤ k then some (k + 2) else none
     | none => none)
  | _ => none

/-- Scanner after an opening `[` for one lazy group `\[.*?\]` (no DOTALL, so
`.` excludes a newline) whose continuation never fails: the group ends at
the first `]` reached without crossing a newline; `n` counts the scanned
characters. -/
def bracketScan : List Char → Nat → Nat
  | [], _ => 0
  | c :: cs, n =>
    if c = '\n' then 0
    else if c = ']' then n + 2
    else bracketScan cs (n + 1)

/-- Consumed length of the optional lazy bracket group `(\[.*?\])?` (0 when
the group is absent or cannot close, in which case the option matches
empty). -/
def optBracketGroup : List Char → Nat
  | '[' :: rest => bracketScan rest 0
  | _ => 0

/-- Scanner after an opening brace for one lazy brace group `{.*?}` (no
DOTALL): the body ends at the first closing brace reached without crossing a
newline; returns the body length. -/
def braceScan : List Char → Nat → Option Nat
  | [], _ => none
  | c :: cs, n =>
    if c = '\n' then none
    else if c = '\x7d' then some n
    else braceScan cs (n + 1)

/-- Consumed length of the trailing `({.*?})*` of the command pattern:
greedily match consecutive lazy brace groups.  The structural `fuel` is the
length of the scanned list at the first call; every iteration consumes at
least two characters, so the fuel never runs out before the list does and
the `0` base case coincides with the empty-list case. -/
def braceGroups : Nat → List Char → Nat
  | 0, _ => 0
  | fuel + 1, l =>
    match l with
    | c :: rest =>
      if c = '\x7b' then
        match braceScan rest 0 with
        | none => 0
        | some n => (n + 2) + braceGroups fuel (rest.drop (n + 1))
      else 0
    | [] => 0

/-- Matcher for `\\([a-zA-Z]+)(\*?)(\[.*?\])?({.*?})*`: a backslash, a
greedy letter run (group 1), an optional star, an optional lazy bracket
group and any number of lazy brace groups.  None of the optional parts can
make a started match fail, so the engine never backtracks into the letter
run. -/
def tryCommand : List Char → Option (Nat × List Char)
  | '\\' :: rest =>
    let name := rest.takeWhile Char.isAlpha
    if name = [] then none
    else
      let r1 := rest.drop name.length
      let p : Nat × List Char :=
        match r1 with
        | '*' :: r => (1, r)
        | r => (0, r)
      let bl := optBracketGroup p.2
      let r3 := p.2.drop bl
      some (1 + name.length + p.1 + bl + braceGroups r3.length r3, name)
  | _ => none

/-- Matcher for `\\begin\{([^}]+)\}(.*?)\\end\{\1\}` (DOTALL): the name is
the run up to the first closing brace (non-empty), and the lazy body ends at
the first occurrence of `\end{name}`. -/
def tryEnvironment (s : List Char) : Option (Nat × List Char) :=
  let beginLit := "\\begin\x7b".toList
  if beginLit.isPrefixOf s then
    let rest := s.drop 7
    match idxOfChar '\x7d' rest with
    | some k =>
      if 1 ≤ k then
        let name := rest.take k
        let body := rest.drop (k + 1)
        let endLit := "\\end\x7b".toList ++ name ++ ['\x7d']
        match idxOfSub endLit body with
        | some j => some (7 + k + 1 + j + endLit.length, name)
        | none => none
      else none
    | none => none
  else none

/-- Matcher for `\{([^}]+)\}`: a brace group whose body is the non-empty run
up to the first closing brace.  Returns the consumed length and the body
(the key group). -/
def keyBraceGroup : List Char → Option (Nat × List Char)
  | c :: rest =>
    if c = '\x7b' then
      match idxOfChar '\x7d' rest with
      | some k => if 1 ≤ k then some (k + 2, rest.take k) else none
      | none => none
    else none
  | _ => none

/-- Backtracking scanner after the opening `[` of the citation pattern's
lazy `(?:\[.*?\])?` followed by the key group: candidate closing `]`s are
tried left to right (`.` also matches `]`, so on failure the group extends
to the next `]`), each candidate accepted only when the key group follows;
`n` counts the scanned characters. -/
def bracketKeyScan : List Char → Nat → Option (Nat × List Char)
  | [], _ => none
  | c :: cs, n =>
    if c = '\n' then none
    else if c = ']' then
      match keyBraceGroup cs with
      | some (m, ks) => some (1 + n + 1 + m, ks)
      | none => bracketKeyScan cs (n + 1)
    else bracketKeyScan cs (n + 1)

/-- Combined `(?:\[.*?\])?\{([^}]+)\}`: when no bracket-group candidate
admits the key group the optional group matches empty, which requires the
key group at the opening `[` itself (where it fails, reproducing the
engine's attempt order). -/
def bracketThenKey : List Char → Option (Nat × List Char)
  | '[' :: rest =>
    (match bracketKeyScan rest 0 with
     | some r => some r
     | none => keyBraceGroup ('[' :: rest))
  | s => keyBraceGroup s

/-- Matcher for `\\cite\*?(?:\[.*?\])?\{([^}]+)\}`.  The greedy `\*?`
consumes a star when present; if the continuation then fails the star is
given back (which cannot rescue the match, since `*` is neither `[` nor an
opening brace, but the attempt order of the engine is reproduced). -/
def tryCitation (s : List Char) : Option (Nat × List Char) :=
  let citeLit := "\\cite".toList
  if citeLit.isPrefixOf s then
    let r := s.drop 5
    match r with
    | '*' :: r2 =>
      (match bracketThenKey r2 with
       | some (n, ks) => some (5 + 1 + n, ks)
       | none =>
         match bracketThenKey r with
         | some (n, ks) => some (5 + n, ks)
         | none => none)
    | _ =>
      match bracketThenKey r with
      | some (n, ks) => some (5 + n, ks)
      | none => none
  else none

/-- Alternatives of the reference pattern, in pattern order.  Their first
letters are pairwise distinct, so at most one alternative can match the
literal; if its continuation fails no other alternative applies. -/
def refNames : List (List Char) :=
  ["ref".toList, "pageref".toList, "autoref".toList, "nameref".toList,
   "eqref".toList, "cref".toList, "Cref".toList]

/-- Combined `\*?\{([^}]+)\}`: optional star, then the key group (with the
same give-back-the-star attempt order as in the citation pattern). -/
def starThenKey : List Char → Option (Nat × List Char)
  | '*' :: r2 =>
    (match keyBraceGroup r2 with
     | some (n, ks) => some (1 + n, ks)
     | none => keyBraceGroup ('*' :: r2))
  | s => keyBraceGroup s

/-- Trial of the reference alternatives in order. -/
def refPick : List (List Char) → List Char → Option (Nat × List Char)
  | [], _ => none
  | nm :: nms, rest =>
    if nm.isPrefixOf rest then
      match starThenKey (rest.drop nm.length) with
      | some (n, ks) => some (1 + nm.length + n, ks)
      | none => refPick nms rest
    else refPick nms rest

/-- Matcher for
`\\(?:ref|pageref|autoref|nameref|eqref|cref|Cref)\*?\{([^}]+)\}`. -/
def tryReference : List Char → Option (Nat × List Char)
  | '\\' :: rest => refPick refNames rest
  | _ => none

/-- Matcher for `\\label\{([^}]+)\}`. -/
def tryLabel (s : List Char) : Option (Nat × List Char) :=
  let labelLit := "\\label".toList
  if labelLit.isPrefixOf s then
    match keyBraceGroup (s.drop 6) with
    | some (n, ks) => some (6 + n, ks)
    | none => none
  else none

/-- Matcher for `(?<!\\)%.*$` (MULTILINE): a `%` whose preceding character
is not a backslash, then the greedy rest of the line (`.` excludes the
newline, `$` matches before a newline or at the end). -/
def tryComment (prev : Option Char) : List Char → Option Nat
  | '%' :: rest =>
    if prev = some '\\' then none
    else some (1 + (rest.takeWhile (fun c => c ≠ '\n')).length)
  | _ => none

/-- Driver replaying `re.finditer`: try the matcher at every position from
left to right; on a (necessarily non-empty, for all the patterns above)
match of length `len` at position `pos`, record `(pos, len, payload)` and
resume at `pos + len`; otherwise advance one position.  `prev` is the
character just before the current position (for the comment lookbehind). -/
def scanFrom (tryM : Option Char → List Char → Option (Nat × α)) :
    Nat → Option Char → List Char → Nat → List (Nat × Nat × α)
  | 0, _, _, _ => []
  | fuel + 1, prev, s, pos =>
    match s with
    | [] => []
    | c :: rest =>
      match tryM prev (c :: rest) with
      | none => scanFrom tryM fuel (some c) rest (pos + 1)
      | some (len, a) =>
        if len = 0 then scanFrom tryM fuel (some c) rest (pos + 1)
        else
          (pos, len, a) ::
            scanFrom tryM fuel ((c :: rest).take len).getLast?
              ((c :: rest).drop len) (pos + len)

/-- All matches of a matcher that ignores the preceding character.  The
structural fuel is the content length: every recursive step of `scanFrom`
consumes at least one character, so the fuel never runs out before the list
does and the `0` base case coincides with the empty-suffix case. -/
def scanAll (tryM : List Char → Option (Nat × α)) (content : List Char) :
    List (Nat × Nat × α) :=
  scanFrom (fun _ s => tryM s) content.length none content 0

/-- Embedding of `_find_math_elements`: display matches first, then the
inline matches whose start does not fall inside a found display match. -/
def find_math_elements (content : List Char) : List LatexElement :=
  let displays :=
    (scanAll (fun s => (tryMathDisplay s).map (fun n => (n, ()))) content).map
      (fun m =>
        { type := LatexElementType.MATH_DISPLAY,
          content := pySlice content m.1 (m.1 + m.2.1),
          start_pos := m.1, end_pos := m.1 + m.2.1,
          should_translate := false })
  let inlines :=
    (scanAll (fun s => (tryMathInline s).map (fun n => (n, ()))) content).filterMap
      (fun m =>
        if displays.any (fun e =>
            decide (e.type = LatexElementType.MATH_DISPLAY) &&
            decide (e.start_pos ≤ m.1) && decide (m.1 < e.end_pos)) then none
        else some
          { type := LatexElementType.MATH_INLINE,
            content := pySlice content m.1 (m.1 + m.2.1),
            start_pos := m.1, end_pos := m.1 + m.2.1,
            should_translate := false })
  displays ++ inlines

/-- Embedding of `_find_environments`. -/
def find_environments (content : List Char) : List LatexElement :=
  (scanAll tryEnvironment content).map (fun m =>
    { type := LatexElementType.ENVIRONMENT,
      content := pySlice content m.1 (m.1 + m.2.1),
      start_pos := m.1, end_pos := m.1 + m.2.1,
      should_translate := !NON_TRANSLATABLE_ENVIRONMENTS.contains (String.mk m.2.2),
      metadata := [("environment", m.2.2)] })

/-- Embedding of `_find_commands`. -/
def find_commands (content : List Char) : List LatexElement :=
  (scanAll tryCommand content).map (fun m =>
    { type := LatexElementType.COMMAND,
      content := pySlice content m.1 (m.1 + m.2.1),
      start_pos := m.1, end_pos := m.1 + m.2.1,
      should_translate := !NON_TRANSLATABLE_COMMANDS.contains (String.mk m.2.2),
      metadata := [("command", m.2.2)] })

/-- Embedding of `_find_citations_and_references`: citations, then
references, then labels. -/
def find_citations_and_references (content : List Char) : List LatexElement :=
  ((scanAll tryCitation content).map (fun m =>
    { type := LatexElementType.CITATION,
      content := pySlice content m.1 (m.1 + m.2.1),
      start_pos := m.1, end_pos := m.1 + m.2.1,
      should_translate := false,
      metadata := [("keys", m.2.2)] })) ++
  ((scanAll tryReference content).map (fun m =>
    { type := LatexElementType.REFERENCE,
      content := pySlice content m.1 (m.1 + m.2.1),
      start_pos := m.1, end_pos := m.1 + m.2.1,
      should_translate := false,
      metadata := [("key", m.2.2)] })) ++
  ((scanAll tryLabel content).map (fun m =>
    { type := LatexElementType.LABEL,
      content := pySlice content m.1 (m.1 + m.2.1),
      start_pos := m.1, end_pos := m.1 + m.2.1,
      should_translate := false,
      metadata := [("key", m.2.2)] }))

/-- Embedding of `_find_comments`. -/
def find_comments (content : List Char) : List LatexElement :=
  (scanFrom (fun prev s => (tryComment prev s).map (fun n => (n, ())))
      content.length none content 0).map
    (fun m =>
      { type := LatexElementType.COMMENT,
        content := pySlice content m.1 (m.1 + m.2.1),
        start_pos := m.1, end_pos := m.1 + m.2.1,
        should_translate := false })

/-- Stable insertion (a later element goes after existing elements with a
less-or-equal key), so that folding from the left reproduces the stable
`elements.sort(key=lambda x: x.start_pos)`. -/
def insertByStart (x : LatexElement) : List LatexElement → List LatexElement
  | [] => [x]
  | y :: ys =>
    if y.start_pos ≤ x.start_pos then y :: insertByStart x ys else x :: y :: ys

/-- Stable sort by `start_pos`. -/
def sortByStart (l : List LatexElement) : List LatexElement :=
  l.foldl (fun acc x => insertByStart x acc) []

/-- Loop of `_fill_text_elements` (with `last_end` as accumulator). -/
def fillLoop (content : List Char) : Nat → List LatexElement → List LatexElement
  | last_end, [] =>
    if last_end < content.length then
      let t := pySlice content last_end content.length
      if hasNonWs t then
        [{ type := LatexElementType.TEXT, content := t,
           start_pos := last_end, end_pos := content.length,
           should_translate := true }]
      else []
    else []
  | last_end, e :: es =>
    (if e.start_pos > last_end then
      let t := pySlice content last_end e.start_pos
      if hasNonWs t then
        [{ type := LatexElementType.TEXT, content := t,
           start_pos := last_end, end_pos := e.start_pos,
           should_translate := true }]
      else []
    else []) ++ e :: fillLoop content e.end_pos es

/-- Embedding of `_fill_text_elements`. -/
def fill_text_elements (content : List Char) : List LatexElement → List LatexElement
  | [] =>
    [{ type := LatexElementType.TEXT, content := content,
       start_pos := 0, end_pos := content.length, should_translate := true }]
  | e :: es => fillLoop content 0 (e :: es)

/-- Merged, sorted element list of `parse` before gap filling. -/
def foundSorted (latex_content : List Char) : List LatexElement :=
  sortByStart
    (find_math_elements latex_content ++
     find_environments latex_content ++
     find_commands latex_content ++
     find_citations_and_references latex_content ++
     find_comments latex_content)

/-- Embedding of `LatexParser.parse`. -/
def parse (latex_content : List Char) : List LatexElement :=
  fill_text_elements latex_content (foundSorted latex_content)

/-- Embedding of `LatexParser.extract_translatable_text`. -/
def extract_translatable_text (latex_content : List Char) :
    List (List Char × Nat × Nat) :=
  (parse latex_content).filterMap (fun e =>
    if e.should_translate ∧ e.type = LatexElementType.TEXT then
      if hasNonWs e.content then some (e.content, e.start_pos, e.end_pos)
      else none
    else none)

/-- Loop of `preserve_structure`. -/
def spliceLoop (original : List Char) : Nat → List (List Char × Nat × Nat) → List Char
  | last_end, [] =>
    if last_end < original.length then pySlice original last_end original.length
    else []
  | last_end, (t, s, e) :: ps =>
    (if s > last_end then pySlice original last_end s else []) ++
    t ++ spliceLoop original e ps

/-- Embedding of `LatexParser.preserve_structure`. -/
def preserve_structure (original : List Char)
    (translated_parts : List (List Char × Nat × Nat)) : List Char :=
  match translated_parts with
  | [] => original
  | ps => spliceLoop original 0 ps

end LatexParser

/-- Lookup in an association list modelling a Python `dict` (`d.get(k)` /
`k in d`). -/
def alistLookup (l : List (String × α)) (k : String) : Option α :=
  (l.find? (fun p => p.1 == k)).map (·.2)

/-- Assignment `d[k] = v` on a Python `dict`: an existing key keeps its
insertion position, a new key is appended. -/
def alistInsert (l : List (String × α)) (k : String) (v : α) : List (String × α) :=
  if (l.find? (fun p => p.1 == k)).isSome then
    l.map (fun p => if p.1 == k then (k, v) else p)
  else l ++ [(k, v)]

namespace LatexProjectAnalyzer

open LatexParser

/-- Embedding of the `LatexCommand` dataclass of `latex_project_analyzer.py`. -/
structure LatexCommand where
  name : String
  definition : List Char
  num_args : Int := 0
  optional_args : Int := 0
  is_custom : Bool := true
  source_file : Option String := none
deriving DecidableEq, Repr

/-- Embedding of the `LatexEnvironment` dataclass of
`latex_project_analyzer.py`. -/
structure LatexEnvironment where
  name : String
  definition : List Char
  is_custom : Bool := true
  source_file : Option String := none
deriving DecidableEq, Repr

/-- Embedding of the `LatexFile` dataclass of `latex_project_analyzer.py`.
The `used_commands`, `used_environments`, `citations`, `labels` and `refs`
Python sets are duplicate-free lists in first-insertion order. -/
structure LatexFile where
  path : String
  content : List Char
  dependencies : List String := []
  custom_commands : List LatexCommand := []
  custom_environments : List LatexEnvironment := []
  used_commands : List String := []
  used_environments : List String := []
  citations : List String := []
  labels : List String := []
  refs : List String := []
deriving DecidableEq, Repr

/-- Embedding of `_load_standard_commands`. -/
def standard_commands : List String :=
  ["section", "subsection", "subsubsection", "paragraph", "subparagraph",
   "chapter", "part", "title", "author", "date", "maketitle",
   "tableofcontents", "listoffigures", "listoftables",
   "textbf", "textit", "textsc", "texttt", "emph", "underline",
   "footnote", "marginpar", "caption", "label", "ref", "pageref",
   "cite", "bibliography", "bibliographystyle",
   "begin", "end", "item", "enumerate", "itemize", "description",
   "figure", "table", "center", "flushleft", "flushright",
   "includegraphics", "usepackage", "documentclass",
   "newpage", "clearpage", "pagebreak", "linebreak",
   "hspace", "vspace", "quad", "qquad"]

/-- Embedding of `_load_standard_environments` (the literal `'verse'`
duplicate of the source set literal collapses in the set, membership is
unaffected). -/
def standard_environments : List String :=
  ["document", "abstract", "quote", "quotation", "verse",
   "itemize", "enumerate", "description", "list",
   "figure", "table", "tabular", "array",
   "equation", "align", "gather", "multline", "split",
   "eqnarray", "displaymath", "math",
   "center", "flushleft", "flushright",
   "minipage", "parbox", "makebox", "framebox",
   "verbatim", "verbatim*",
   "thebibliography", "theindex"]

/-- Embedding of `_find_main_file` as a pure function of the discovered
`(path, content)` pairs (the source re-reads each file to search for
`\documentclass`; the pure model reads the supplied contents and never
fails). -/
def find_main_file (inputs : List (String × List Char)) : Option String :=
  let common_names := ["main.tex", "paper.tex", "document.tex", "thesis.tex", "article.tex"]
  match common_names.find? (fun n => inputs.any (fun p => p.1 == n)) with
  | some n => some n
  | none =>
    match inputs.find? (fun p => containsSub p.2 "\\documentclass".toList) with
    | some p => some p.1
    | none => (inputs.head?).map (·.1)

/-- Matcher for a literal directive followed by a key group,
`LIT\{([^}]+)\}` (`lit` excludes the opening brace). -/
def tryLitKey (lit : List Char) (s : List Char) : Option (Nat × List Char) :=
  if lit.isPrefixOf s then
    (keyBraceGroup (s.drop lit.length)).map (fun r => (lit.length + r.1, r.2))
  else none

/-- Directive literals of `_analyze_dependencies`, in source order:
`\input`, `\include`, `\subfile`, `\InputIfFileExists`. -/
def depLits : List (List Char) :=
  ["\\input".toList, "\\include".toList, "\\subfile".toList,
   "\\InputIfFileExists".toList]

/-- Embedding of `_analyze_dependencies`: all matches of each directive
pattern in turn, a bare name getting a `.tex` suffix; duplicates are kept
(the `dependencies` field is a list). -/
def analyze_dependencies (content : List Char) : List String :=
  depLits.foldl (fun acc lit =>
    acc ++ (scanAll (tryLitKey lit) content).map (fun m =>
      let dep := m.2.2
      let dep := if pyEndsWith dep ".tex".toList then dep else dep ++ ".tex".toList
      String.mk dep)) []

/-- Matcher for `LIT\{\\([^}]+)\}(?:\[(\d+)\])?\{([^}]+)\}` with `lit` one
of `\newcommand`/`\renewcommand` (including the `{\`): the name runs to the
first closing brace; the optional `[digits]` group cannot be rescued by
backtracking when started and unclosable, in which case the match fails. -/
def tryCmdDefPat (lit : List Char) (s : List Char) :
    Option (Nat × List Char × Option (List Char) × List Char) :=
  if lit.isPrefixOf s then
    let r := s.drop lit.length
    match idxOfChar '\x7d' r with
    | some k =>
      if 1 ≤ k then
        let name := r.take k
        let r2 := r.drop (k + 1)
        let dg : Option (Nat × Option (List Char)) :=
          match r2 with
          | '[' :: r3 =>
            let digits := r3.takeWhile Char.isDigit
            if digits ≠ [] ∧ r3.get? digits.length = some ']' then
              some (digits.length + 2, some digits)
            else none
          | _ => some (0, none)
        match dg with
        | none => none
        | some (dl, digits) =>
          match keyBraceGroup (r2.drop dl) with
          | some (bl, body) =>
            some (lit.length + k + 1 + dl + bl, name, digits, body)
          | none => none
      else none
    | none => none
  else none

/-- Matcher for `\\def\\([^{]+)\{([^}]+)\}`: the name is the non-empty run
up to the first opening brace, the body the non-empty run up to the first
closing brace. -/
def tryDefDirective (s : List Char) : Option (Nat × List Char × List Char) :=
  let lit := "\\def\\".toList
  if lit.isPrefixOf s then
    let r := s.drop 5
    match idxOfChar '\x7b' r with
    | some k =>
      if 1 ≤ k then
        let name := r.take k
        match keyBraceGroup (r.drop k) with
        | some (bl, body) => some (5 + k + bl, name, body)
        | none => none
      else none
    | none => none
  else none

/-- Matcher for
`LIT\{([^}]+)\}(?:\[(\d+)\])?\{([^}]+)\}\{([^}]+)\}` with `lit` one of
`\newenvironment{`/`\renewenvironment{`. -/
def tryEnvDefPat (lit : List Char) (s : List Char) :
    Option (Nat × List Char × List Char × List Char) :=
  if lit.isPrefixOf s then
    let r := s.drop lit.length
    match idxOfChar '\x7d' r with
    | some k =>
      if 1 ≤ k then
        let name := r.take k
        let r2 := r.drop (k + 1)
        let dg : Option Nat :=
          match r2 with
          | '[' :: r3 =>
            let digits := r3.takeWhile Char.isDigit
            if digits ≠ [] ∧ r3.get? digits.length = some ']' then
              some (digits.length + 2)
            else none
          | _ => some 0
        match dg with
        | none => none
        | some dl =>
          match keyBraceGroup (r2.drop dl) with
          | some (b1, body1) =>
            match keyBraceGroup (r2.drop (dl + b1)) with
            | some (b2, body2) =>
              some (lit.length + k + 1 + dl + b1 + b2, name, body1, body2)
            | none => none
          | none => none
      else none
    | none => none
  else none

/-- Embedding of the command half of `_analyze_custom_definitions`.  For the
`\newcommand`/`\renewcommand` patterns `num_args` is `int` of the digit
group (or 0 when absent) and the definition is group 3; for the `\def`
pattern the source evaluates `int(match.group(2))` on the (always truthy)
*body* group, so any non-numeric `\def` body raises `ValueError` — embedded
as `none`. -/
def customCommandsOf (content : List Char) (path : String) :
    Option (List LatexCommand) := do
  let mk1 : Nat × Nat × List Char × Option (List Char) × List Char →
      Option LatexCommand := fun m => do
    let numArgs ← match m.2.2.2.1 with
      | some d => pyInt d
      | none => some 0
    some { name := String.mk m.2.2.1, definition := m.2.2.2.2,
           num_args := numArgs, source_file := some path }
  let l1 ← (scanAll (tryCmdDefPat "\\newcommand\x7b\\".toList) content).mapM mk1
  let l2 ← (scanAll (tryCmdDefPat "\\renewcommand\x7b\\".toList) content).mapM mk1
  let mk3 : Nat × Nat × List Char × List Char → Option LatexCommand :=
    fun m => do
      let numArgs ← if m.2.2.2 ≠ [] then pyInt m.2.2.2 else some 0
      some { name := String.mk m.2.2.1, definition := m.2.2.2,
             num_args := numArgs, source_file := some path }
  let l3 ← (scanAll tryDefDirective content).mapM mk3
  some (l1 ++ l2 ++ l3)

/-- Embedding of the environment half of `_analyze_custom_definitions`
(no `int()` is evaluated there, so it is total). -/
def customEnvironmentsOf (content : List Char) (path : String) :
    List LatexEnvironment :=
  let mk : Nat × Nat × List Char × List Char × List Char → LatexEnvironment :=
    fun m =>
      let name := m.2.2.1
      { name := String.mk name,
        definition := "\\begin\x7b".toList ++ name ++ "\x7d".toList ++
          m.2.2.2.1 ++ "...".toList ++ "\\end\x7b".toList ++ name ++
          "\x7d".toList ++ m.2.2.2.2,
        source_file := some path }
  ((scanAll (tryEnvDefPat "\\newenvironment\x7b".toList) content).map mk) ++
  ((scanAll (tryEnvDefPat "\\renewenvironment\x7b".toList) content).map mk)

/-- Per-element bookkeeping of `_analyze_file` (`_analyze_command`,
`_analyze_environment`, `_analyze_citation`, `_analyze_reference`,
`_analyze_label`). -/
def recordElement (lf : LatexFile) (e : LatexElement) : LatexFile :=
  match e.type with
  | LatexElementType.COMMAND =>
    match alistLookup e.metadata "command" with
    | some v => { lf with used_commands := setAdd lf.used_commands (String.mk v) }
    | none => lf
  | LatexElementType.ENVIRONMENT =>
    match alistLookup e.metadata "environment" with
    | some v => { lf with used_environments := setAdd lf.used_environments (String.mk v) }
    | none => lf
  | LatexElementType.CITATION =>
    match alistLookup e.metadata "keys" with
    | some v =>
      let ks := (splitOnChar ',' v).foldl
        (fun acc k => setAdd acc (String.mk (pyStrip k))) lf.citations
      { lf with citations := ks }
    | none => lf
  | LatexElementType.REFERENCE =>
    match alistLookup e.metadata "key" with
    | some v => { lf with refs := setAdd lf.refs (String.mk v) }
    | none => lf
  | LatexElementType.LABEL =>
    match alistLookup e.metadata "key" with
    | some v => { lf with labels := setAdd lf.labels (String.mk v) }
    | none => lf
  | _ => lf

/-- Embedding of `_analyze_file` on in-memory content (reading cannot fail
in the pure model; `none` propagates the `ValueError` of
`_analyze_custom_definitions`). -/
def analyze_file (path : String) (content : List Char) : Option LatexFile := do
  let elements := parse content
  let lf := elements.foldl recordElement { path := path, content := content }
  let deps := analyze_dependencies content
  let ccs ← customCommandsOf content path
  let ces := customEnvironmentsOf content path
  some { lf with dependencies := deps, custom_commands := ccs,
                 custom_environments := ces }

/-- Embedding of `_build_dependency_graph`: an edge survives only when its
target is a discovered file. -/
def build_dependency_graph (files : List (String × LatexFile)) :
    List (String × List String) :=
  files.map (fun p =>
    (p.1, p.2.dependencies.filter (fun d => (alistLookup files d).isSome)))

/-- `self.dependency_graph.get(node, [])`. -/
def graphGet (g : List (String × List String)) (n : String) : List String :=
  (alistLookup g n).getD []

/-- Embedding of the recursive `visit` of `_determine_compilation_order`:
state is `(visited, result)`; `temp` is the active traversal stack (append
at the end, as the Python set tracks the current path); a node already on
the stack or already visited is skipped.  The Python recursion is unbounded;
`fuel` only bounds the call depth, and every actual call chain strictly
grows the duplicate-free stack `temp` with nodes drawn from the graph keys
and the initial files, so any `fuel` larger than that supply reproduces the
source exactly. -/
def visitAux (g : List (String × List String)) :
    Nat → String → List String → List String × List String →
    List String × List String
  | 0, _, _, vr => vr
  | fuel + 1, node, temp, vr =>
    if node ∈ temp then vr
    else if node ∈ vr.1 then vr
    else
      let vr2 := (graphGet g node).foldl
        (fun acc dep => visitAux g fuel dep (temp ++ [node]) acc) vr
      (vr2.1 ++ [node], vr2.2 ++ [node])

/-- Embedding of `_determine_compilation_order`: visit every file key in
order (the redundant `not in visited` guard of the loop is subsumed by the
guard inside `visit`).  The fuel `files.length + 1` dominates the deepest
possible call chain (see `visitAux`). -/
def determine_compilation_order (files : List (String × LatexFile))
    (g : List (String × List String)) : List String :=
  (files.foldl (fun vr p =>
    if p.1 ∈ vr.1 then vr
    else visitAux g (files.length + 1) p.1 [] vr) ([], [])).2

/-- Embedding of `_integrate_global_definitions` (last definition per name
wins). -/
def integrate_global (files : List (String × LatexFile)) :
    List (String × LatexCommand) × List (String × LatexEnvironment) :=
  files.foldl (fun acc p =>
    let gc := p.2.custom_commands.foldl (fun m c => alistInsert m c.name c) acc.1
    let ge := p.2.custom_environments.foldl (fun m e => alistInsert m e.name e) acc.2
    (gc, ge)) ([], [])

/-- State of a `LatexProjectAnalyzer` after `analyze_project` (the
`_get_project_structure` summary dict of the returned value is derived data
consumed by nobody and is not embedded). -/
structure AnalyzerState where
  main_file : Option String
  files : List (String × LatexFile)
  global_commands : List (String × LatexCommand)
  global_environments : List (String × LatexEnvironment)
  dependency_graph : List (String × List String)
  compilation_order : List String
deriving DecidableEq, Repr

/-- Embedding of `analyze_project` as a pure pipeline over the discovered
`(path, content)` pairs in discovery order (file discovery and reading are
the I/O boundary). -/
def analyze_project_pure (inputs : List (String × List Char)) :
    Option AnalyzerState := do
  let main := find_main_file inputs
  let files ← inputs.mapM (fun p =>
    (analyze_file p.1 p.2).map (fun lf => (p.1, lf)))
  let graph := build_dependency_graph files
  let order := determine_compilation_order files graph
  let glob := integrate_global files
  some { main_file := main, files := files, global_commands := glob.1,
         global_environments := glob.2, dependency_graph := graph,
         compilation_order := order }

/-- Embedding of `validate_references` (the `missing_labels` report; the
`missing_citations` list of the source is always left empty). -/
def validate_references (files : List (String × LatexFile)) : List String :=
  let all_labels := files.foldl (fun acc p => p.2.labels.foldl setAdd acc) []
  files.foldl (fun acc p =>
    acc ++ (p.2.refs.filterMap (fun r =>
      if r ∈ all_labels then none
      else some (p.1 ++ ": \\ref\x7b" ++ r ++ "\x7d")))) []

/-- Value of `get_translation_context` for a known file (the source returns
a plain dict; `none` at the call site models the empty dict returned for an
unknown path). -/
structure TranslationContext where
  file_path : String
  is_main_file : Bool
  dependencies : List String
  available_commands : List String
  available_environments : List String
  custom_commands : List (String × List Char)
  custom_environments : List (String × List Char)
  used_commands : List String
  used_environments : List String
  labels : List String
  citations : List String
  refs : List String
deriving DecidableEq, Repr

/-- Embedding of `get_translation_context`: the empty dict for an unknown
path is `none`. -/
def get_translation_context (st : AnalyzerState) (file_path : String) :
    Option TranslationContext :=
  match alistLookup st.files file_path with
  | none => none
  | some lf =>
    some
      { file_path := file_path,
        is_main_file := st.main_file == some file_path,
        dependencies := lf.dependencies,
        available_commands :=
          (st.global_commands.map (·.1)).foldl setAdd
            (standard_commands.foldl setAdd []),
        available_environments :=
          (st.global_environments.map (·.1)).foldl setAdd
            (standard_environments.foldl setAdd []),
        custom_commands :=
          lf.custom_commands.foldl (fun m c => alistInsert m c.name c.definition) [],
        custom_environments :=
          lf.custom_environments.foldl (fun m e => alistInsert m e.name e.definition) [],
        used_commands := lf.used_commands,
        used_environments := lf.used_environments,
        labels := lf.labels,
        citations := lf.citations,
        refs := lf.refs }

end LatexProjectAnalyzer

namespace LatexValidator

open LatexParser LatexProjectAnalyzer

/-- Embedding of the `ValidationIssue` dataclass of `latex_validator.py`. -/
structure ValidationIssue where
  type : String
  severity : String
  message : String
  file_path : String
  line_number : Option Nat := none
  suggestion : Option String := none
deriving DecidableEq, Repr

/-- Python `str()` of an `Optional[str]` interpolated into an f-string. -/
def optStr : Option String → String
  | some s => s
  | none => "None"

/-- Embedding of `_validate_project_structure`.  `none` models the
`KeyError` of `self.analyzer.files[self.analyzer.main_file]` when a set
main file is not a key of `files` (never the case for a state produced by
`analyze_project`). -/
def validate_project_structure (st : AnalyzerState) :
    Option (List ValidationIssue) :=
  match st.main_file with
  | none =>
    some [{ type := "missing_main_file", severity := "error",
            message := "メインファイルが見つかりません", file_path := "",
            suggestion := some "main.tex または documentclass を含むファイルを作成してください" }]
  | some m =>
    match alistLookup st.files m with
    | none => none
    | some mf =>
      some
        ((if containsSub mf.content "\\documentclass".toList then [] else
          [{ type := "missing_documentclass", severity := "error",
             message := "\\documentclass が見つかりません", file_path := m,
             suggestion := some "\\documentclass\x7barticle\x7d などを追加してください" }]) ++
         (if containsSub mf.content "\\begin\x7bdocument\x7d".toList then [] else
          [{ type := "missing_begin_document", severity := "error",
             message := "\\begin\x7bdocument\x7d が見つかりません", file_path := m,
             suggestion := some "\\begin\x7bdocument\x7d を追加してください" }]) ++
         (if containsSub mf.content "\\end\x7bdocument\x7d".toList then [] else
          [{ type := "missing_end_document", severity := "error",
             message := "\\end\x7bdocument\x7d が見つかりません", file_path := m,
             suggestion := some "\\end\x7bdocument\x7d を追加してください" }]))

/-- Embedding of `_is_common_package_command`. -/
def is_common_package_command (command : String) : Bool :=
  command ∈
    ["align", "gather", "multline", "split", "aligned", "gathered",
     "cases", "matrix", "pmatrix", "bmatrix", "vmatrix", "Vmatrix",
     "mathbb", "mathfrak", "mathscr",
     "includegraphics", "rotatebox", "scalebox",
     "href", "url", "hyperref", "hypersetup",
     "geometry", "newgeometry",
     "fancyhf", "fancyhead", "fancyfoot", "pagestyle",
     "selectlanguage", "foreignlanguage",
     "citep", "citet", "citealp", "citealt", "citeauthor", "citeyear",
     "tikz", "tikzpicture", "node", "draw", "fill", "path",
     "lstlisting", "lstinputlisting", "lstset",
     "algorithm", "algorithmic", "algsetup"]

/-- Matcher for `\\([a-zA-Z]+)` (the `re.findall` of `_validate_file`). -/
def tryCmdName : List Char → Option (Nat × List Char)
  | '\\' :: rest =>
    let nm := rest.takeWhile Char.isAlpha
    if nm = [] then none else some (1 + nm.length, nm)
  | _ => none

/-- Checks of `_validate_file` on one (1-based) line. -/
def validate_line (global_commands : List (String × LatexCommand))
    (path : String) (i : Nat) (line : List Char) : List ValidationIssue :=
  (if line.count '\x7b' ≠ line.count '\x7d' then
    [{ type := "unmatched_braces", severity := "warning",
       message := "括弧が一致しません: " ++ String.mk (pyStrip line),
       file_path := path, line_number := some i,
       suggestion := some "括弧の数を確認してください" }]
  else []) ++
  (if line.count '$' % 2 ≠ 0 then
    [{ type := "unmatched_math_delimiters", severity := "warning",
       message := "数式記号が一致しません: " ++ String.mk (pyStrip line),
       file_path := path, line_number := some i,
       suggestion := some "$ の数を確認してください" }]
  else []) ++
  ((scanAll tryCmdName line).filterMap (fun m =>
    let cmd := String.mk m.2.2
    if cmd ∉ standard_commands ∧ (alistLookup global_commands cmd).isNone ∧
        ¬ is_common_package_command cmd then
      some { type := "unknown_command", severity := "warning",
             message := "未知のコマンドです: \\" ++ cmd,
             file_path := path, line_number := some i,
             suggestion := some "コマンドが正しいか、必要なパッケージが読み込まれているか確認してください" }
    else none))

/-- Embedding of `_validate_file`. -/
def validate_file (global_commands : List (String × LatexCommand))
    (lf : LatexFile) : List ValidationIssue :=
  ((splitOnNl lf.content).enum.foldl (fun acc p =>
    acc ++ validate_line global_commands lf.path (p.1 + 1) p.2) [])

/-- Embedding of `_validate_dependencies`. -/
def validate_dependencies (files : List (String × LatexFile)) :
    List ValidationIssue :=
  files.foldl (fun acc p =>
    acc ++ p.2.dependencies.filterMap (fun dep =>
      if (alistLookup files dep).isSome then none
      else some
        { type := "missing_dependency", severity := "error",
          message := "依存ファイルが見つかりません: " ++ dep,
          file_path := p.1,
          suggestion := some (dep ++ " ファイルを作成するか、パスを確認してください") })) []

/-- Embedding of `_validate_references` (over the `missing_labels` report of
the analyzer). -/
def validate_references_issues (files : List (String × LatexFile)) :
    List ValidationIssue :=
  (LatexProjectAnalyzer.validate_references files).map (fun ml =>
    { type := "missing_label", severity := "error",
      message := "参照先のラベルが見つかりません: " ++ ml,
      file_path := String.mk ((splitOnChar ':' ml.toList).headD []),
      suggestion := some "対応するラベルを追加してください" })

/-- Embedding of `_validate_custom_definitions`. -/
def validate_custom_definitions (st : AnalyzerState) : List ValidationIssue :=
  st.files.foldl (fun acc p =>
    acc ++ p.2.used_commands.filterMap (fun cmd_name =>
      match alistLookup st.global_commands cmd_name with
      | none => none
      | some cmd_def =>
        if cmd_def.source_file ≠ some p.1 then
          if (match cmd_def.source_file with
              | some sf => decide (sf ∉ p.2.dependencies)
              | none => true) then
            some
              { type := "missing_command_dependency", severity := "warning",
                message := "コマンド \\" ++ cmd_name ++ " が " ++
                  optStr cmd_def.source_file ++
                  " で定義されていますが、依存関係がありません",
                file_path := p.1,
                suggestion := some ("\\input\x7b" ++ optStr cmd_def.source_file ++
                  "\x7d を追加してください") }
          else none
        else none)) []

/-- The `re.match(r'\\begin\{([^}]+)\}', content)` of the environment
re-scan (anchored at the start of the element content). -/
def beginNameOf (c : List Char) : Option (List Char) :=
  if "\\begin\x7b".toList.isPrefixOf c then
    match idxOfChar '\x7d' (c.drop 7) with
    | some k => if 1 ≤ k then some ((c.drop 7).take k) else none
    | none => none
  else none

/-- The `re.search(r'\\end\{([^}]+)\}', content)`: first position at which
the pattern matches. -/
def endNameSearch : List Char → Option (List Char)
  | [] => none
  | c :: rest =>
    if "\\end\x7b".toList.isPrefixOf (c :: rest) then
      match keyBraceGroup ((c :: rest).drop 4) with
      | some (_, ks) => some ks
      | none => endNameSearch rest
    else endNameSearch rest

/-- One step of the environment-nesting stack scan of
`_validate_latex_syntax`: push the `\begin` name, then pop on the first
`\end` name when it matches the top of the stack, else report a mismatch
(the stack is a Python list: append and pop at the end). -/
def envScanStep (path : String) (acc : List (List Char) × List ValidationIssue)
    (e : LatexElement) : List (List Char) × List ValidationIssue :=
  if e.type = LatexElementType.ENVIRONMENT then
    let st1 :=
      match beginNameOf e.content with
      | some n => acc.1 ++ [n]
      | none => acc.1
    match endNameSearch e.content with
    | some endEnv =>
      if st1 ≠ [] ∧ st1.getLast? = some endEnv then (st1.dropLast, acc.2)
      else
        (st1, acc.2 ++
          [{ type := "unmatched_environment", severity := "error",
             message := "環境が正しく閉じられていません: " ++ String.mk endEnv,
             file_path := path,
             suggestion := some ("\\begin\x7b" ++ String.mk endEnv ++
               "\x7d に対応する \\end\x7b" ++ String.mk endEnv ++
               "\x7d を確認してください") }])
    | none => (st1, acc.2)
  else acc

/-- Embedding of `_validate_latex_syntax` for one file: re-parse the
content, run the stack scan over the elements, then report one
`unclosed_environment` error per entry left on the stack (in stack order,
bottom first). -/
def validate_latex_envs (path : String) (lf : LatexFile) :
    List ValidationIssue :=
  let elements := parse lf.content
  let r := elements.foldl (envScanStep path) ([], [])
  r.2 ++ r.1.map (fun n =>
    { type := "unclosed_environment", severity := "error",
      message := "環境が閉じられていません: " ++ String.mk n,
      file_path := path,
      suggestion := some ("\\end\x7b" ++ String.mk n ++ "\x7d を追加してください") })

/-- Result dict of `validate_project` (`fixes_applied` is always the empty
list at this point of the source). -/
structure ValidateResult where
  issues : List ValidationIssue
  fixes_applied : List String
  error_count : Nat
  warning_count : Nat
  is_compilable : Bool
deriving DecidableEq, Repr

/-- Embedding of `validate_project`: the six checks in order, then the
aggregate counts; `none` models the `KeyError` path of
`_validate_project_structure`. -/
def validate_project (st : AnalyzerState) : Option ValidateResult := do
  let s ← validate_project_structure st
  let perFile := st.files.foldl (fun acc p =>
    acc ++ validate_file st.global_commands p.2) []
  let deps := validate_dependencies st.files
  let refs := validate_references_issues st.files
  let custom := validate_custom_definitions st
  let envs := st.files.foldl (fun acc p =>
    acc ++ validate_latex_envs p.1 p.2) []
  let issues := s ++ perFile ++ deps ++ refs ++ custom ++ envs
  some { issues := issues, fixes_applied := [],
         error_count := (issues.filter (fun i => i.severity == "error")).length,
         warning_count := (issues.filter (fun i => i.severity == "warning")).length,
         is_compilable :=
           (issues.filter (fun i => i.severity == "error")).length == 0 }

/-- Embedding of the `full_to_half` table of `_fix_file_content`, in source
order. -/
def full_to_half : List (Char × Char) :=
  [('（', '('), ('）', ')'), ('｛', '\x7b'), ('｝', '\x7d'), ('［', '['),
   ('］', ']'), ('＄', '$'), ('＼', '\\'), ('％', '%'), ('＆', '&'),
   ('＿', '_'), ('＾', '^'), ('｜', '|'), ('～', '~'), ('＃', '#')]

/-- Python `content.replace(full, half)` for the single-character pairs of
the table. -/
def replaceChar (f t : Char) (l : List Char) : List Char :=
  l.map (fun c => if c = f then t else c)

/-- The sequential full-width→half-width replacements of
`_fix_file_content`. -/
def fixFullHalf (l : List Char) : List Char :=
  full_to_half.foldl (fun acc p => replaceChar p.1 p.2 acc) l

/-- Driver replaying `re.sub`: try the matcher at every position; on a
match of length `len` emit its replacement and resume after the match,
otherwise copy one character.  The structural fuel is the content length at
the first call (every step consumes at least one character, so the `0` base
case coincides with the empty-suffix case). -/
def pySubScan (tryM : List Char → Option (Nat × List Char)) :
    Nat → List Char → List Char
  | 0, _ => []
  | fuel + 1, l =>
    match l with
    | [] => []
    | c :: rest =>
      match tryM (c :: rest) with
      | none => c :: pySubScan tryM fuel rest
      | some (len, rep) =>
        if len = 0 then c :: pySubScan tryM fuel rest
        else rep ++ pySubScan tryM fuel ((c :: rest).drop len)

/-- Matcher/replacement for `re.sub(r'\n{3,}', '\n\n', content)`: a greedy
maximal newline run of length at least 3 collapses to two newlines. -/
def tryNlSub (s : List Char) : Option (Nat × List Char) :=
  match s with
  | '\n' :: rest =>
    let run := 1 + (rest.takeWhile (fun c => c = '\n')).length
    if 3 ≤ run then some (run, ['\n', '\n']) else none
  | _ => none

/-- Matcher/replacement for `re.sub(r'\$\s+([^$]+)\s+\$', r'$\1$',
content)`.  With `M` the characters strictly between the opening `$` and
the next `$`: the leading `\s+` is greedy, the group `[^$]+` is greedy and
the trailing `\s+` backtracks to one character, so a match needs a
whitespace first character, a whitespace last character and `|M| ≥ 3`, and
the group is `M` minus its first `min(lead, |M|-2)` characters and its last
character. -/
def tryMathSub (s : List Char) : Option (Nat × List Char) :=
  match s with
  | '$' :: rest =>
    (match idxOfChar '$' rest with
     | some k =>
       let M := rest.take k
       let lead := (M.takeWhile pyWs).length
       if decide (1 ≤ lead) && decide (3 ≤ M.length) &&
           (match M.getLast? with | some c => pyWs c | none => false) then
         let a := min lead (M.length - 2)
         let g := (M.drop a).dropLast
         some (k + 2, '$' :: g ++ ['$'])
       else none
     | none => none)
  | _ => none

/-- Matcher/replacement for `re.sub(r'\\([a-zA-Z]+)\s+\{', r'\\\1{',
content)`: a backslash, letters, whitespace, then an opening brace directly
after the maximal whitespace run. -/
def tryCmdSpaceSub (s : List Char) : Option (Nat × List Char) :=
  match s with
  | '\\' :: rest =>
    let nm := rest.takeWhile Char.isAlpha
    if nm = [] then none
    else
      let r1 := rest.drop nm.length
      let ws := (r1.takeWhile pyWs).length
      if 1 ≤ ws ∧ r1.get? ws = some '\x7b' then
        some (1 + nm.length + ws + 1, '\\' :: nm ++ ['\x7b'])
      else none
  | _ => none

/-- Embedding of `_fix_file_content`: the four passes in source order. -/
def fix_file_content (content : List Char) : List Char :=
  let c1 := fixFullHalf content
  let c2 := pySubScan tryNlSub c1.length c1
  let c3 := pySubScan tryMathSub c2.length c2
  pySubScan tryCmdSpaceSub c3.length c3

/-- Embedding of `auto_fix_issues`: only files whose content changes are
returned. -/
def auto_fix_issues (st : AnalyzerState) : List (String × List Char) :=
  st.files.filterMap (fun p =>
    let fixed := fix_file_content p.2.content
    if fixed ≠ p.2.content then some (p.1, fixed) else none)

/-- Embedding of `_get_critical_commands`. -/
def get_critical_commands (st : AnalyzerState) (file_path : String) :
    List String :=
  match alistLookup st.files file_path with
  | none => []
  | some lf =>
    lf.used_commands.filter (fun cmd =>
      (alistLookup st.global_commands cmd).isSome)

/-- The five fixed safety rules of `_get_safe_translation_rules`. -/
def baseSafeRules : List String :=
  ["LaTeXコマンドと環境は一切変更しない",
   "数式記号（$, \\(, \\), \x7b, \x7d, \\, &, %）は絶対に変更しない",
   "\\cite, \\ref, \\label内のキーは変更しない",
   "カスタムコマンドは翻訳しない",
   "ファイル名やパスは変更しない"]

/-- Embedding of `_get_safe_translation_rules`: five fixed rules, plus two
file-specific ones for a known file with custom definitions. -/
def get_safe_translation_rules (st : AnalyzerState) (file_path : String) :
    List String :=
  let rules := baseSafeRules
  match alistLookup st.files file_path with
  | none => rules
  | some lf =>
    let rules :=
      if lf.custom_commands ≠ [] then
        rules ++ ["カスタムコマンド（" ++
          String.intercalate ", " (lf.custom_commands.map (·.name)) ++
          "）は変更しない"]
      else rules
    if lf.custom_environments ≠ [] then
      rules ++ ["カスタム環境（" ++
        String.intercalate ", " (lf.custom_environments.map (·.name)) ++
        "）は変更しない"]
    else rules

/-- Result of `get_compilation_safe_context`: the translation context dict
(possibly the empty dict, modelled `none`) updated with the three
validator-side keys; `validation_issues` carries the projected fields of
the filtered issues. -/
structure SafeContext where
  base : Option TranslationContext
  validation_issues : List (String × String × String × Option String)
  critical_commands : List String
  safe_translation_rules : List String
deriving DecidableEq, Repr

/-- Embedding of `get_compilation_safe_context` (`issues` is the validator's
current issue list, as left by the last `validate_project` run). -/
def get_compilation_safe_context (st : AnalyzerState)
    (issues : List ValidationIssue) (file_path : String) : SafeContext :=
  { base := LatexProjectAnalyzer.get_translation_context st file_path,
    validation_issues :=
      (issues.filter (fun i => i.file_path == file_path)).map (fun i =>
        (i.type, i.severity, i.message, i.suggestion)),
    critical_commands := get_critical_commands st file_path,
    safe_translation_rules := get_safe_translation_rules st file_path }

end LatexValidator

open LatexParser LatexProjectAnalyzer LatexValidator

/-! ## Specification-side definitions

Predicates and reference functions used to state the claims; the
`spliceSpec` function is modelled from the specification's words and is
compared against the embedded `preserve_structure`. -/

/-- Concatenation of the `content` fields of an element list, in list
order. -/
def concatContents (l : List LatexElement) : List Char :=
  (l.map (fun e => e.content)).flatten

/-- Decidable premise for gap filling: from position `last_end` on, the
elements are sorted, pairwise non-overlapping, in bounds, carry the source
slice of their span as content, and every gap (between consecutive
elements, before the first and after the last) is either empty or contains
a non-whitespace character (whitespace-only gaps are the ones
`_fill_text_elements` drops). -/
def fillOK (content : List Char) : Nat → List LatexElement → Bool
  | le, [] =>
    decide (le ≤ content.length) &&
    (decide (le = content.length) ||
      hasNonWs (pySlice content le content.length))
  | le, e :: es =>
    decide (le ≤ e.start_pos) && decide (e.start_pos ≤ e.end_pos) &&
    decide (e.content = pySlice content e.start_pos e.end_pos) &&
    (decide (e.start_pos = le) || hasNonWs (pySlice content le e.start_pos)) &&
    fillOK content e.end_pos es

/-- Contiguity from position `le` up to `n`: each element starts where its
predecessor ended (the first at `le`) and the last one ends at `n`. -/
def contigFrom (n : Nat) : Nat → List LatexElement → Prop
  | le, [] => le = n
  | le, e :: es => e.start_pos = le ∧ contigFrom n e.end_pos es

/-- Comparison key of the parser's sort. -/
def startLE (a b : LatexElement) : Prop := a.start_pos ≤ b.start_pos

/-- Modelled from the spec: "output is the original with each `[start,end)`
region replaced by its `text`, all non-replaced regions copied verbatim" —
the reference splice for sorted, disjoint replacement spans. -/
def spliceSpec (original : List Char) :
    Nat → List (List Char × Nat × Nat) → List Char
  | le, [] => pySlice original le original.length
  | le, (t, s, e) :: ps => pySlice original le s ++ t ++ spliceSpec original e ps

/-- Decidable premise of the splice contract: spans are sorted by start and
pairwise disjoint (each span starts no earlier than position `le`, the end
of the span before it). -/
def spliceChain : Nat → List (List Char × Nat × Nat) → Bool
  | _, [] => true
  | le, (_, s, e) :: ps => decide (le ≤ s) && decide (s ≤ e) && spliceChain e ps

/-- Topological soundness of a result list with respect to the dependency
graph `g`, relative to the already-emitted names `seen`: every element's
dependencies occur among `seen` or earlier in the list. -/
def TopoFrom (g : List (String × List String)) :
    List String → List String → Prop
  | _, [] => True
  | seen, x :: xs =>
    (∀ D ∈ graphGet g x, D ∈ seen) ∧ TopoFrom g (seen ++ [x]) xs

/-! ## Concrete fixtures for witnesses and counterexamples -/

/-- An analyzer state with no files and no main file. -/
def stNoFiles : AnalyzerState :=
  { main_file := none, files := [], global_commands := [],
    global_environments := [], dependency_graph := [],
    compilation_order := [] }

/-- The validation result of `stNoFiles`. -/
def rNoFiles : ValidateResult :=
  { issues := [{ type := "missing_main_file", severity := "error",
                 message := "メインファイルが見つかりません", file_path := "",
                 suggestion := some "main.tex または documentclass を含むファイルを作成してください" }],
    fixes_applied := [], error_count := 1, warning_count := 0,
    is_compilable := false }

/-- A two-node file table for the compilation-order witness. -/
def filesW : List (String × LatexFile) :=
  [("main.tex", { path := "main.tex", content := [] }),
   ("defs.tex", { path := "defs.tex", content := [] })]

/-- The dependency graph `main.tex -> defs.tex`. -/
def graphW : List (String × List String) :=
  [("main.tex", ["defs.tex"]), ("defs.tex", [])]

/-- A ranking witnessing the acyclicity of `graphW`. -/
def rankW (p : String) : Nat := if p = "defs.tex" then 0 else 1

/-- Discovery input of the claimed two-file scenario: `main.tex` with
`\input{defs}` and an existing `defs.tex`. -/
def scenarioInputs : List (String × List Char) :=
  [("main.tex",
    "\\documentclass\x7barticle\x7d\\begin\x7bdocument\x7d\\input\x7bdefs\x7d\\end\x7bdocument\x7d".toList),
   ("defs.tex", "\\newcommand\x7b\\foo\x7d\x7bbar\x7d".toList)]

/-- Content with a `\begin{theorem}` and no `\end{theorem}`. -/
def unclosedTheoremContent : List Char :=
  "\\documentclass\x7barticle\x7d\\begin\x7bdocument\x7d\\begin\x7btheorem\x7dA\\end\x7bdocument\x7d".toList

/-- Content whose single Environment element carries a mismatched first
`\end{}` name, leaving an (artificial) entry on the validator's stack. -/
def mismatchedEnvContent : List Char :=
  "\\begin\x7ba\x7d\\begin\x7bb\x7d\\end\x7bb\x7d\\end\x7ba\x7d".toList

/-! ## Lemmas and claim theorems -/

theorem pySlice_self (l : List Char) (a : Nat) : pySlice l a a = [] := by
  simp [pySlice]

theorem pySlice_of_le (l : List Char) {a : Nat} (b : Nat)
    (h : l.length ≤ a) : pySlice l a b = [] := by
  simp [pySlice, List.drop_eq_nil_of_le h]

theorem spliceLoop_eq_spec (original : List Char) :
    ∀ (ps : List (List Char × Nat × Nat)) (le : Nat),
      spliceChain le ps = true →
      spliceLoop original le ps = spliceSpec original le ps := by
  intro ps
  induction ps with
  | nil =>
    intro le _
    by_cases h : le < original.length
    · simp [spliceLoop, spliceSpec, h]
    · simp [spliceLoop, spliceSpec, h,
        pySlice_of_le original original.length (Nat.le_of_not_lt h)]
  | cons p ps ih =>
    intro le hc
    obtain ⟨t, s, e⟩ := p
    simp only [spliceChain, Bool.and_eq_true, decide_eq_true_eq] at hc
    obtain ⟨⟨hle, _⟩, hch⟩ := hc
    by_cases h : s > le
    · simp [spliceLoop, spliceSpec, h, ih e hch]
    · have hs : s = le := Nat.le_antisymm (Nat.le_of_not_lt h) hle
      subst hs
      simp [spliceLoop, spliceSpec, h, ih e hch, pySlice_self]

/-- C6: for every original string and every list of replacement triples
with pairwise-disjoint spans sorted by start, `preserve_structure` returns
the original with each `[start, end)` region replaced by its text and every
non-replaced region copied verbatim (the reference splice `spliceSpec`); in
particular `preserve_structure S [] = S`. -/
theorem preserve_structure_spec :
    (∀ original : List Char, preserve_structure original [] = original) ∧
    (∀ (original : List Char) (ps : List (List Char × Nat × Nat)),
      spliceChain 0 ps = true →
      preserve_structure original ps = spliceSpec original 0 ps) := by
  constructor
  · intro o; rfl
  · intro o ps h
    cases ps with
    | nil => simp [preserve_structure, spliceSpec, pySlice]
    | cons p ps => exact spliceLoop_eq_spec o (p :: ps) 0 h

/-- Witness for C6 at a concrete input. -/
theorem preserve_structure_spec_witness :
    spliceChain 0 [("XY".toList, 1, 3)] = true ∧
    preserve_structure "abcdef".toList [("XY".toList, 1, 3)] =
      spliceSpec "abcdef".toList 0 [("XY".toList, 1, 3)] :=
  ⟨by decide,
   preserve_structure_spec.2 "abcdef".toList [("XY".toList, 1, 3)] (by decide)⟩

/-- C9: every span returned by `extract_translatable_text` comes from an
element of the parse result of type Text with `should_translate` true and
non-whitespace content; in particular no Command or Environment element is
ever returned, whatever its `should_translate` flag. -/
theorem extract_translatable_text_sound :
    ∀ (S : List Char) (x : List Char × Nat × Nat),
      x ∈ extract_translatable_text S →
      ∃ e ∈ parse S,
        e.type = LatexElementType.TEXT ∧
        e.type ≠ LatexElementType.COMMAND ∧
        e.type ≠ LatexElementType.ENVIRONMENT ∧
        e.should_translate = true ∧ hasNonWs e.content = true ∧
        x = (e.content, e.start_pos, e.end_pos) := by
  intro S x hx
  simp only [extract_translatable_text, List.mem_filterMap] at hx
  obtain ⟨e, he, hf⟩ := hx
  refine ⟨e, he, ?_⟩
  split at hf
  case isTrue h1 =>
    split at hf
    case isTrue h2 =>
      injection hf with hf
      exact ⟨h1.2, by simp [h1.2], by simp [h1.2], h1.1, h2, hf.symm⟩
    case isFalse h2 => cases hf
  case isFalse h1 => cases hf

/-- Witness for C9 at a concrete input. -/
theorem extract_translatable_text_sound_witness :
    ("hello".toList, 0, 5) ∈ extract_translatable_text "hello".toList ∧
    (∃ e ∈ parse "hello".toList,
      e.type = LatexElementType.TEXT ∧
      e.type ≠ LatexElementType.COMMAND ∧
      e.type ≠ LatexElementType.ENVIRONMENT ∧
      e.should_translate = true ∧ hasNonWs e.content = true ∧
      (("hello".toList, 0, 5) : List Char × Nat × Nat) =
        (e.content, e.start_pos, e.end_pos)) :=
  ⟨by decide,
   extract_translatable_text_sound "hello".toList ("hello".toList, 0, 5)
     (by decide)⟩

/-- C10: for a path not present in the analyzer's files mapping,
`get_translation_context` returns the empty mapping (`none`) and
`get_compilation_safe_context` returns a context whose base is the empty
mapping, whose `critical_commands` are empty and whose
`safe_translation_rules` are exactly the five fixed rules — no error is
raised (the functions are total on such paths). -/
theorem missing_path_context :
    ∀ (st : AnalyzerState) (issues : List ValidationIssue) (path : String),
      alistLookup st.files path = none →
      get_translation_context st path = none ∧
      (get_compilation_safe_context st issues path).base = none ∧
      (get_compilation_safe_context st issues path).critical_commands = [] ∧
      (get_compilation_safe_context st issues path).safe_translation_rules =
        baseSafeRules := by
  intro st issues path h
  refine ⟨?_, ?_, ?_, ?_⟩ <;>
    simp [get_translation_context, get_compilation_safe_context,
      get_critical_commands, get_safe_translation_rules, h]

/-- Witness for C10 at a concrete state and path. -/
theorem missing_path_context_witness :
    alistLookup stNoFiles.files "nope.tex" = none ∧
    get_translation_context stNoFiles "nope.tex" = none ∧
    (get_compilation_safe_context stNoFiles [] "nope.tex").critical_commands = [] ∧
    (get_compilation_safe_context stNoFiles [] "nope.tex").safe_translation_rules =
      baseSafeRules :=
  ⟨by decide,
   (missing_path_context stNoFiles [] "nope.tex" (by decide)).1,
   (missing_path_context stNoFiles [] "nope.tex" (by decide)).2.2.1,
   (missing_path_context stNoFiles [] "nope.tex" (by decide)).2.2.2⟩

theorem filter_err_len_iff (l : List ValidationIssue) :
    (((l.filter (fun i => i.severity == "error")).length == 0) = true) ↔
      ∀ i ∈ l, i.severity ≠ "error" := by
  rw [beq_iff_eq, List.length_eq_zero, List.filter_eq_nil_iff]
  simp

/-- C8: `is_compilable` in the result of `validate_project` is true exactly
when the returned issue list contains no issue of severity `error`. -/
theorem validate_is_compilable_iff :
    ∀ (st : AnalyzerState) (r : ValidateResult),
      validate_project st = some r →
      (r.is_compilable = true ↔ ∀ i ∈ r.issues, i.severity ≠ "error") := by
  intro st r h
  unfold validate_project at h
  cases hs : validate_project_structure st with
  | none => rw [hs] at h; cases h
  | some s =>
    rw [hs] at h
    simp only [Option.some_bind] at h
    injection h with h
    subst h
    exact filter_err_len_iff _

/-- Witness for C8 at a concrete state. -/
theorem validate_is_compilable_iff_witness :
    validate_project stNoFiles = some rNoFiles ∧
    ¬ (rNoFiles.is_compilable = true) := by
  have h : validate_project stNoFiles = some rNoFiles := by decide
  exact ⟨h, fun hc =>
    absurd ((validate_is_compilable_iff stNoFiles rNoFiles h).mp hc) (by decide)⟩

theorem fillOK_le (content : List Char) :
    ∀ (es : List LatexElement) (le : Nat),
      fillOK content le es = true → le ≤ content.length := by
  intro es
  induction es with
  | nil =>
    intro le h
    simp only [fillOK, Bool.and_eq_true, decide_eq_true_eq] at h
    exact h.1
  | cons e es ih =>
    intro le h
    simp only [fillOK, Bool.and_eq_true, decide_eq_true_eq] at h
    exact le_trans (le_trans h.1.1.1.1 h.1.1.1.2) (ih _ h.2)

theorem pySlice_append (l : List Char) {a b c : Nat} (hab : a ≤ b)
    (hbc : b ≤ c) : pySlice l a b ++ pySlice l b c = pySlice l a c := by
  unfold pySlice
  have hdrop : l.drop b = (l.drop a).drop (b - a) := by
    rw [List.drop_drop]
    congr 1
    omega
  rw [hdrop, ← List.take_add]
  congr 1
  omega


theorem concatContents_cons (e : LatexElement) (l : List LatexElement) :
    concatContents (e :: l) = e.content ++ concatContents l := by
  simp [concatContents]

theorem fillLoop_concat (content : List Char) :
    ∀ (es : List LatexElement) (le : Nat),
      fillOK content le es = true →
      concatContents (fillLoop content le es) =
        pySlice content le content.length := by
  intro es
  induction es with
  | nil =>
    intro le h
    simp only [fillOK, Bool.and_eq_true, Bool.or_eq_true, decide_eq_true_eq] at h
    obtain ⟨hle, hgap⟩ := h
    by_cases hlt : le < content.length
    · have hnw : hasNonWs (pySlice content le content.length) = true := by
        rcases hgap with h | h
        · omega
        · exact h
      simp [fillLoop, hlt, hnw, concatContents]
    · have hEq : le = content.length := by omega
      subst hEq
      simp [fillLoop, concatContents, pySlice_self]
  | cons e es ih =>
    intro le h
    simp only [fillOK, Bool.and_eq_true, Bool.or_eq_true, decide_eq_true_eq] at h
    obtain ⟨⟨⟨⟨h1, h2⟩, h3⟩, h4⟩, h5⟩ := h
    have hend : e.end_pos ≤ content.length := fillOK_le content es e.end_pos h5
    by_cases hgt : e.start_pos > le
    · have hnw : hasNonWs (pySlice content le e.start_pos) = true := by
        rcases h4 with h | h
        · omega
        · exact h
      have hfl : fillLoop content le (e :: es) =
          ({ type := LatexElementType.TEXT,
             content := pySlice content le e.start_pos,
             start_pos := le, end_pos := e.start_pos,
             should_translate := true } : LatexElement) ::
            e :: fillLoop content e.end_pos es := by
        simp [fillLoop, hgt, hnw]
      rw [hfl, concatContents_cons, concatContents_cons, ih e.end_pos h5, h3]
      show pySlice content le e.start_pos ++
          (pySlice content e.start_pos e.end_pos ++
            pySlice content e.end_pos content.length) =
        pySlice content le content.length
      rw [pySlice_append content h2 hend,
        pySlice_append content h1 (le_trans h2 hend)]
    · have hs : e.start_pos = le := by omega
      have hfl : fillLoop content le (e :: es) =
          e :: fillLoop content e.end_pos es := by
        simp [fillLoop, hgt]
      rw [hfl, concatContents_cons, ih e.end_pos h5, h3, hs]
      exact pySlice_append content (hs ▸ h2) hend

/-- C1 (amended): concatenating the `content` fields of `parse S` in order
reproduces S exactly whenever the detected (sorted) elements are pairwise
non-overlapping, in bounds, carry their source slice as content and leave
no whitespace-only gap; in general `_fill_text_elements` drops
whitespace-only gaps and overlapping detections duplicate source text, so
the unconditional round-trip fails. -/
theorem parse_roundtrip_of_fillOK :
    ∀ S : List Char, fillOK S 0 (foundSorted S) = true →
      concatContents (parse S) = S := by
  intro S h
  unfold parse fill_text_elements
  cases hfs : foundSorted S with
  | nil => simp [concatContents]
  | cons e es =>
    rw [hfs] at h
    have hc := fillLoop_concat S (e :: es) 0 h
    rw [hc]
    simp [pySlice]

/-- C1 counterexample: on `"$x$ $y$"` the two inline-math elements leave a
whitespace-only gap, which gap filling drops, so the concatenation loses
the separating space. -/
theorem parse_roundtrip_counterexample :
    concatContents (parse "$x$ $y$".toList) ≠ "$x$ $y$".toList := by decide

/-- Witness for the amended C1 at a concrete input. -/
theorem parse_roundtrip_of_fillOK_witness :
    fillOK "\\alpha x".toList 0 (foundSorted "\\alpha x".toList) = true ∧
    concatContents (parse "\\alpha x".toList) = "\\alpha x".toList :=
  ⟨by decide, parse_roundtrip_of_fillOK "\\alpha x".toList (by decide)⟩

theorem mem_insertByStart {x a : LatexElement} :
    ∀ {l : List LatexElement}, a ∈ insertByStart x l ↔ a = x ∨ a ∈ l := by
  intro l
  induction l with
  | nil => simp [insertByStart]
  | cons y ys ih =>
    by_cases h : y.start_pos ≤ x.start_pos
    · simp only [insertByStart, if_pos h, List.mem_cons, ih]
      tauto
    · simp only [insertByStart, if_neg h, List.mem_cons]

theorem pairwise_insertByStart {x : LatexElement} :
    ∀ {l : List LatexElement}, l.Pairwise startLE →
      (insertByStart x l).Pairwise startLE := by
  intro l
  induction l with
  | nil => intro _; simp [insertByStart, startLE]
  | cons y ys ih =>
    intro hp
    rw [List.pairwise_cons] at hp
    obtain ⟨hy, hys⟩ := hp
    by_cases h : y.start_pos ≤ x.start_pos
    · rw [insertByStart, if_pos h, List.pairwise_cons]
      refine ⟨?_, ih hys⟩
      intro b hb
      rcases mem_insertByStart.mp hb with rfl | hb
      · exact h
      · exact hy b hb
    · rw [insertByStart, if_neg h, List.pairwise_cons]
      refine ⟨?_, ?_⟩
      · intro b hb
        rcases List.mem_cons.mp hb with rfl | hb
        · exact Nat.le_of_lt (Nat.lt_of_not_le h)
        · exact le_trans (Nat.le_of_lt (Nat.lt_of_not_le h)) (hy b hb)
      · rw [List.pairwise_cons]
        exact ⟨hy, hys⟩

theorem pairwise_sortByStart (l : List LatexElement) :
    (sortByStart l).Pairwise startLE := by
  suffices h : ∀ acc : List LatexElement, acc.Pairwise startLE →
      (l.foldl (fun acc x => insertByStart x acc) acc).Pairwise startLE by
    exact h [] (by simp)
  induction l with
  | nil => intro acc h; exact h
  | cons x xs ih => intro acc h; exact ih _ (pairwise_insertByStart h)

theorem mem_foldl_insertByStart (a : LatexElement) :
    ∀ (l acc : List LatexElement),
      (a ∈ l.foldl (fun acc x => insertByStart x acc) acc) ↔
        a ∈ acc ∨ a ∈ l := by
  intro l
  induction l with
  | nil => intro acc; simp
  | cons x xs ih =>
    intro acc
    simp only [List.foldl_cons]
    rw [ih (insertByStart x acc), mem_insertByStart]
    simp only [List.mem_cons]
    tauto

theorem mem_sortByStart {a : LatexElement} {l : List LatexElement} :
    a ∈ sortByStart l ↔ a ∈ l := by
  unfold sortByStart
  rw [mem_foldl_insertByStart]
  simp

theorem found_start_le_end (S : List Char) :
    ∀ e ∈ foundSorted S, e.start_pos ≤ e.end_pos := by
  intro e he
  rw [foundSorted, mem_sortByStart] at he
  simp only [List.mem_append] at he
  rcases he with (((hm | he') | hc) | hcr) | hco
  · simp only [find_math_elements, List.mem_append, List.mem_map,
      List.mem_filterMap] at hm
    rcases hm with ⟨m, _, rfl⟩ | ⟨m, _, hf⟩
    · simp
    · split at hf
      · cases hf
      · injection hf with hf
        subst hf
        simp
  · simp only [find_environments, List.mem_map] at he'
    obtain ⟨m, _, rfl⟩ := he'
    simp
  · simp only [find_commands, List.mem_map] at hc
    obtain ⟨m, _, rfl⟩ := hc
    simp
  · simp only [find_citations_and_references, List.mem_append,
      List.mem_map] at hcr
    rcases hcr with (⟨m, _, rfl⟩ | ⟨m, _, rfl⟩) | ⟨m, _, rfl⟩ <;> simp
  · simp only [find_comments, List.mem_map] at hco
    obtain ⟨m, _, rfl⟩ := hco
    simp

theorem fillLoop_start_bound (content : List Char) :
    ∀ (es : List LatexElement) (le b : Nat),
      (∀ x ∈ es, x.start_pos ≤ x.end_pos) →
      es.Pairwise startLE →
      (∀ x ∈ es, b ≤ x.start_pos) →
      b ≤ le →
      ∀ out ∈ fillLoop content le es, b ≤ out.start_pos := by
  intro es
  induction es with
  | nil =>
    intro le b _ _ _ hble out hout
    simp only [fillLoop] at hout
    split at hout
    · split at hout
      · rw [List.mem_singleton] at hout
        subst hout
        exact hble
      · cases hout
    · cases hout
  | cons e es ih =>
    intro le b hse hp hbs hble out hout
    rw [List.pairwise_cons] at hp
    simp only [fillLoop, List.mem_append, List.mem_cons] at hout
    rcases hout with hgap | rfl | hrest
    · split at hgap
      · split at hgap
        · rw [List.mem_singleton] at hgap
          subst hgap
          exact hble
        · cases hgap
      · cases hgap
    · exact hbs _ (by simp)
    · refine ih e.end_pos b ?_ hp.2 ?_ ?_ out hrest
      · intro x hx; exact hse x (by simp [hx])
      · intro x hx; exact hbs x (by simp [hx])
      · exact le_trans (hbs e (by simp)) (hse e (by simp))

theorem fillLoop_pairwise (content : List Char) :
    ∀ (es : List LatexElement) (le : Nat),
      (∀ x ∈ es, x.start_pos ≤ x.end_pos) →
      es.Pairwise startLE →
      (fillLoop content le es).Pairwise startLE := by
  intro es
  induction es with
  | nil =>
    intro le _ _
    simp only [fillLoop]
    split
    · split
      · simp
      · simp
    · simp
  | cons e es ih =>
    intro le hse hp
    have hp' := hp
    rw [List.pairwise_cons] at hp'
    obtain ⟨hy, hys⟩ := hp'
    have hse' : ∀ x ∈ es, x.start_pos ≤ x.end_pos := fun x hx => hse x (by simp [hx])
    have htail : (e :: fillLoop content e.end_pos es).Pairwise startLE := by
      rw [List.pairwise_cons]
      refine ⟨?_, ih e.end_pos hse' hys⟩
      intro b hb
      exact fillLoop_start_bound content es e.end_pos e.start_pos hse' hys hy
        (hse e (by simp)) b hb
    simp only [fillLoop]
    split
    · case isTrue hgt =>
      split
      · case isTrue hnw =>
        rw [List.singleton_append, List.pairwise_cons]
        refine ⟨?_, htail⟩
        intro b hb
        rcases List.mem_cons.mp hb with rfl | hb
        · exact Nat.le_of_lt hgt
        · exact fillLoop_start_bound content es e.end_pos le hse' hys
            (fun x hx => le_trans (Nat.le_of_lt hgt) (hy x hx))
            (le_trans (Nat.le_of_lt hgt) (hse e (by simp))) b hb
      · case isFalse hnw =>
        simpa using htail
    · case isFalse hgt =>
      simpa using htail

/-- C2 sortedness half. -/
theorem parse_pairwise (S : List Char) : (parse S).Pairwise startLE := by
  unfold parse fill_text_elements
  cases hfs : foundSorted S with
  | nil => simp
  | cons e es =>
    apply fillLoop_pairwise
    · intro x hx
      exact found_start_le_end S x (by rw [hfs]; exact hx)
    · have hps := pairwise_sortByStart
        (find_math_elements S ++ find_environments S ++ find_commands S ++
          find_citations_and_references S ++ find_comments S)
      rw [← foundSorted, hfs] at hps
      exact hps

theorem fillLoop_contig (content : List Char) :
    ∀ (es : List LatexElement) (le : Nat),
      fillOK content le es = true →
      contigFrom content.length le (fillLoop content le es) := by
  intro es
  induction es with
  | nil =>
    intro le h
    simp only [fillOK, Bool.and_eq_true, Bool.or_eq_true, decide_eq_true_eq] at h
    obtain ⟨hle, hgap⟩ := h
    by_cases hlt : le < content.length
    · have hnw : hasNonWs (pySlice content le content.length) = true := by
        rcases hgap with h | h
        · omega
        · exact h
      simp only [fillLoop, if_pos hlt, if_pos hnw]
      exact ⟨rfl, rfl⟩
    · have hEq : le = content.length := by omega
      subst hEq
      simp only [fillLoop]
      rw [if_neg hlt]
      exact rfl
  | cons e es ih =>
    intro le h
    simp only [fillOK, Bool.and_eq_true, Bool.or_eq_true, decide_eq_true_eq] at h
    obtain ⟨⟨⟨⟨h1, h2⟩, h3⟩, h4⟩, h5⟩ := h
    by_cases hgt : e.start_pos > le
    · have hnw : hasNonWs (pySlice content le e.start_pos) = true := by
        rcases h4 with h | h
        · omega
        · exact h
      simp only [fillLoop, if_pos hgt, if_pos hnw, List.singleton_append]
      exact ⟨rfl, rfl, ih e.end_pos h5⟩
    · have hs : e.start_pos = le := by omega
      simp only [fillLoop, if_neg hgt, List.nil_append]
      exact ⟨hs, ih e.end_pos h5⟩

/-- C2 (amended). -/
theorem parse_sorted_and_contiguous :
    (∀ S : List Char, (parse S).Pairwise startLE) ∧
    (∀ S : List Char, fillOK S 0 (foundSorted S) = true →
      contigFrom S.length 0 (parse S)) := by
  refine ⟨parse_pairwise, ?_⟩
  intro S h
  unfold parse fill_text_elements
  cases hfs : foundSorted S with
  | nil => exact ⟨rfl, rfl⟩
  | cons e es =>
    rw [hfs] at h
    exact fillLoop_contig S (e :: es) 0 h

/-- C2 counterexample. -/
theorem parse_nonoverlap_counterexample :
    (parse "\\ref\x7bx\x7d".toList).map
        (fun e => (e.type, e.start_pos, e.end_pos)) =
      [(LatexElementType.COMMAND, 0, 7), (LatexElementType.REFERENCE, 0, 7)] := by
  decide

/-- Witness for C2. -/
theorem parse_sorted_and_contiguous_witness :
    fillOK "\\beta y".toList 0 (foundSorted "\\beta y".toList) = true ∧
    contigFrom "\\beta y".toList.length 0 (parse "\\beta y".toList) :=
  ⟨by decide, parse_sorted_and_contiguous.2 "\\beta y".toList (by decide)⟩

/-- C3 counterexample: the file content contains `\begin{theorem}` and no
`\end{theorem}`, yet `validate_project` on the analyzed single-file project
reports no issue at all — in particular no `unclosed_environment` error —
because the parser's environment pattern only matches balanced
`\begin{X}...\end{X}` pairs, so an unclosed `\begin` never reaches the
validator's stack scan. -/
theorem unclosed_env_not_reported :
    containsSub unclosedTheoremContent "\\begin\x7btheorem\x7d".toList = true ∧
    containsSub unclosedTheoremContent "\\end\x7btheorem\x7d".toList = false ∧
    ((analyze_project_pure [("main.tex", unclosedTheoremContent)]).bind
      validate_project).map (fun r => r.issues) = some [] := by decide

/-- C3 (amended): a `\begin` with no matching `\end` yields no Environment
element and hence no `unclosed_environment` issue; such issues arise (one
error per entry left on the stack) only when an Environment element's first
`\end{}` name differs from the stack top, as with
`\begin{a}\begin{b}\end{b}\end{a}`, whose single Environment element pushes
`a` but ends first with `b`: the scan reports one `unmatched_environment`
error for `b` and one `unclosed_environment` error naming `a`. -/
theorem unclosed_env_from_mismatch :
    ((analyze_project_pure [("main.tex", mismatchedEnvContent)]).bind
      validate_project).map (fun r =>
        (r.issues.map (fun i => i.type),
         (r.issues.filter (fun i => i.type == "unclosed_environment")).map
           (fun i => (i.severity, i.message)))) =
      some (["missing_documentclass", "missing_begin_document",
             "missing_end_document", "unmatched_environment",
             "unclosed_environment"],
            [("error", "環境が閉じられていません: a")]) := by decide

/-- C4 counterexample: in `parse "\cite{a}"` the span `[0, 8)` of the
`\cite` occurrence is emitted twice — once as a generic Command element
(tagged `cite`) and once as the dedicated Citation element — so a citation
span is also emitted as a Command element. -/
theorem citation_retag_counterexample :
    (parse "\\cite\x7ba\x7d".toList).map
        (fun e => (e.type, e.start_pos, e.end_pos)) =
      [(LatexElementType.COMMAND, 0, 8), (LatexElementType.CITATION, 0, 8)] := by
  decide

/-- C4 (amended): the dedicated citation/reference/label patterns add their
own elements on top of, not instead of, the generic command match: a
`\cite` occurrence appears in the parse result both as a Command element
(metadata `command = cite`) and as a Citation element (metadata
`keys = a`) over the same span. -/
theorem citation_also_command :
    (parse "x \\cite\x7ba\x7d y".toList).map
        (fun e => (e.type, e.start_pos, e.end_pos,
          e.metadata.map (fun p => (p.1, String.mk p.2)))) =
      [(LatexElementType.TEXT, 0, 2, []),
       (LatexElementType.COMMAND, 2, 10, [("command", "cite")]),
       (LatexElementType.CITATION, 2, 10, [("keys", "a")]),
       (LatexElementType.TEXT, 10, 12, [])] := by decide

/-- C7 counterexample: `_fix_file_content` is not idempotent — on
`"$ a $ b $"` the math-whitespace pass rewrites the first `$ a $` to `$a$`
and consumes its closing dollar, and only a second application can then
match (and rewrite) `$ b $`. -/
theorem fix_not_idempotent_counterexample :
    fix_file_content (fix_file_content "$ a $ b $".toList) ≠
      fix_file_content "$ a $ b $".toList := by decide

theorem replaceChar_no_target (f t : Char) (h : f ≠ t) (l : List Char) :
    f ∉ replaceChar f t l := by
  simp only [replaceChar, List.mem_map, not_exists]
  intro a
  rintro ⟨_, ha⟩
  by_cases hf : a = f
  · rw [if_pos hf] at ha
    exact h ha.symm
  · rw [if_neg hf] at ha
    exact hf (ha ▸ rfl)

theorem replaceChar_pres (f t : Char) {c : Char} {l : List Char}
    (hc : c ∉ l) (hct : c ≠ t) : c ∉ replaceChar f t l := by
  simp only [replaceChar, List.mem_map, not_exists]
  intro a
  rintro ⟨hal, ha⟩
  by_cases hf : a = f
  · rw [if_pos hf] at ha
    exact hct ha.symm
  · rw [if_neg hf] at ha
    exact hc (ha ▸ hal)

theorem fixFullHalf_no_fullwidth_paren (l : List Char) :
    '（' ∉ fixFullHalf l ∧ '）' ∉ fixFullHalf l := by
  constructor <;>
  · simp only [fixFullHalf, full_to_half, List.foldl_cons, List.foldl_nil]
    repeat
      first
      | exact replaceChar_no_target _ _ (by decide) _
      | refine replaceChar_pres _ _ ?_ (by decide)

theorem pySubScan_not_mem (tryM : List Char → Option (Nat × List Char))
    (c : Char)
    (hrep : ∀ s len rep, tryM s = some (len, rep) → c ∉ s → c ∉ rep) :
    ∀ (fuel : Nat) (l : List Char), c ∉ l → c ∉ pySubScan tryM fuel l := by
  intro fuel
  induction fuel with
  | zero => intro l _; simp [pySubScan]
  | succ fuel ih =>
    intro l hl
    cases l with
    | nil => simp [pySubScan]
    | cons x rest =>
      simp only [pySubScan]
      cases htry : tryM (x :: rest) with
      | none =>
        intro hmem
        rcases List.mem_cons.mp hmem with rfl | hmem'
        · exact hl (List.mem_cons_self _ _)
        · exact ih rest (fun h => hl (List.mem_cons_of_mem _ h)) hmem'
      | some p =>
        obtain ⟨len, rep⟩ := p
        by_cases hz : len = 0
        · subst hz
          simp only [if_pos rfl]
          intro hmem
          rcases List.mem_cons.mp hmem with rfl | hmem'
          · exact hl (List.mem_cons_self _ _)
          · exact ih rest (fun h => hl (List.mem_cons_of_mem _ h)) hmem'
        · simp only [if_neg hz]
          intro hmem
          rcases List.mem_append.mp hmem with hmem' | hmem'
          · exact hrep _ _ _ htry hl hmem'
          · exact ih _ (fun h => hl (List.mem_of_mem_drop h)) hmem'

theorem tryNlSub_rep_subset (s : List Char) (len : Nat) (rep : List Char)
    (hf : tryNlSub s = some (len, rep)) : ∀ c ∈ rep, c ∈ s := by
  intro c hc
  unfold tryNlSub at hf
  split at hf
  case _ rest =>
    dsimp only at hf
    split at hf
    · injection hf with hf
      rw [Prod.mk.injEq] at hf
      obtain ⟨-, hrep⟩ := hf
      subst hrep
      have : c = '\n' := by
        simpa using hc
      subst this
      exact List.mem_cons_self _ _
    · cases hf
  case _ => cases hf

theorem tryMathSub_rep_subset (s : List Char) (len : Nat) (rep : List Char)
    (hf : tryMathSub s = some (len, rep)) : ∀ c ∈ rep, c ∈ s := by
  intro c hc
  unfold tryMathSub at hf
  split at hf
  case _ rest =>
    split at hf
    case _ k hk =>
      dsimp only at hf
      split at hf
      · injection hf with hf
        rw [Prod.mk.injEq] at hf
        obtain ⟨-, hrep⟩ := hf
        subst hrep
        rcases List.mem_cons.mp hc with rfl | hc'
        · exact List.mem_cons_self _ _
        · rcases List.mem_append.mp hc' with hg | hd
          · have h1 : c ∈ ((rest.take k).drop
                (min ((rest.take k).takeWhile pyWs).length
                  ((rest.take k).length - 2))) :=
              (List.dropLast_sublist _).subset hg
            have h2 : c ∈ rest.take k := (List.drop_sublist _ _).subset h1
            have h3 : c ∈ rest := (List.take_sublist _ _).subset h2
            exact List.mem_cons_of_mem _ h3
          · have : c = '$' := by simpa using hd
            subst this
            exact List.mem_cons_self _ _
      · cases hf
    case _ => cases hf
  case _ => cases hf

theorem tryCmdSpaceSub_rep_subset (s : List Char) (len : Nat) (rep : List Char)
    (hf : tryCmdSpaceSub s = some (len, rep)) : ∀ c ∈ rep, c ∈ s := by
  intro c hc
  unfold tryCmdSpaceSub at hf
  split at hf
  case _ rest =>
    dsimp only at hf
    split at hf
    · cases hf
    · split at hf
      case isTrue hcond =>
        injection hf with hf
        rw [Prod.mk.injEq] at hf
        obtain ⟨-, hrep⟩ := hf
        subst hrep
        rcases List.mem_cons.mp hc with rfl | hc'
        · exact List.mem_cons_self _ _
        · rcases List.mem_append.mp hc' with hg | hd
          · have h1 : c ∈ rest := List.takeWhile_prefix _ |>.sublist.subset hg
            exact List.mem_cons_of_mem _ h1
          · have : c = '\x7b' := by simpa using hd
            subst this
            have h1 : '\x7b' ∈ (rest.drop
                (rest.takeWhile Char.isAlpha).length) :=
              List.get?_mem hcond.2
            exact List.mem_cons_of_mem _ ((List.drop_sublist _ _).subset h1)
      case isFalse => cases hf
  case _ => cases hf

theorem fix_no_fullwidth_paren :
    ∀ C : List Char, '（' ∉ fix_file_content C ∧ '）' ∉ fix_file_content C := by
  intro C
  unfold fix_file_content
  dsimp only
  constructor
  · apply pySubScan_not_mem _ _
      (fun s len rep h hns hr => hns (tryCmdSpaceSub_rep_subset s len rep h _ hr))
    apply pySubScan_not_mem _ _
      (fun s len rep h hns hr => hns (tryMathSub_rep_subset s len rep h _ hr))
    apply pySubScan_not_mem _ _
      (fun s len rep h hns hr => hns (tryNlSub_rep_subset s len rep h _ hr))
    exact (fixFullHalf_no_fullwidth_paren C).1
  · apply pySubScan_not_mem _ _
      (fun s len rep h hns hr => hns (tryCmdSpaceSub_rep_subset s len rep h _ hr))
    apply pySubScan_not_mem _ _
      (fun s len rep h hns hr => hns (tryMathSub_rep_subset s len rep h _ hr))
    apply pySubScan_not_mem _ _
      (fun s len rep h hns hr => hns (tryNlSub_rep_subset s len rep h _ hr))
    exact (fixFullHalf_no_fullwidth_paren C).2

/-- C7 (amended): the auto-fix text transformation is a pure function (hence
deterministic); full-width `（` and `）` never survive it — in particular on
content containing them they are replaced by ASCII `()` — but, as the
counterexample shows, the whole transformation is not idempotent. -/
theorem fix_fullwidth_parens :
    fix_file_content "（x）".toList = "(x)".toList ∧
    (∀ C : List Char, '（' ∉ fix_file_content C ∧ '）' ∉ fix_file_content C) :=
  ⟨by decide, fix_no_fullwidth_paren⟩

theorem TopoFrom_append (g : List (String × List String)) :
    ∀ (l seen : List String) (n : String),
      TopoFrom g seen (l ++ [n]) ↔
        (TopoFrom g seen l ∧ ∀ D ∈ graphGet g n, D ∈ seen ++ l) := by
  intro l
  induction l with
  | nil => intro seen n; simp [TopoFrom]
  | cons x xs ih =>
    intro seen n
    simp only [List.cons_append, TopoFrom]
    have happ : ∀ D : String, (D ∈ seen ++ [x] ++ xs) ↔ (D ∈ seen ++ x :: xs) := by
      intro D
      simp [List.mem_append, or_assoc]
    constructor
    · rintro ⟨h1, h2⟩
      obtain ⟨h2a, h2b⟩ := (ih (seen ++ [x]) n).mp h2
      exact ⟨⟨h1, h2a⟩, fun D hD => (happ D).mp (h2b D hD)⟩
    · rintro ⟨⟨h1, h2a⟩, h3⟩
      exact ⟨h1, (ih (seen ++ [x]) n).mpr
        ⟨h2a, fun D hD => (happ D).mpr (h3 D hD)⟩⟩

theorem TopoFrom_before (g : List (String × List String)) :
    ∀ (l seen : List String), TopoFrom g seen l →
      ∀ F ∈ l, ∀ D ∈ graphGet g F,
        ∃ l1 l2, l = l1 ++ F :: l2 ∧ (D ∈ seen ∨ D ∈ l1) := by
  intro l
  induction l with
  | nil => intro seen _ F hF; cases hF
  | cons x xs ih =>
    intro seen h F hF D hD
    obtain ⟨h1, h2⟩ := h
    rcases List.mem_cons.mp hF with rfl | hF'
    · exact ⟨[], xs, rfl, Or.inl (h1 D hD)⟩
    · obtain ⟨l1, l2, heq, hm⟩ := ih (seen ++ [x]) h2 F hF' D hD
      refine ⟨x :: l1, l2, by simp [heq], ?_⟩
      rcases hm with hm | hm
      · rcases List.mem_append.mp hm with hm | hm
        · exact Or.inl hm
        · exact Or.inr (List.mem_cons.mpr (Or.inl (List.mem_singleton.mp hm)))
      · exact Or.inr (List.mem_cons_of_mem _ hm)

theorem visitAux_spec (g : List (String × List String)) (rank : String → Nat)
    (HR : ∀ a b, b ∈ graphGet g a → rank b < rank a) :
    ∀ (fuel : Nat) (node : String) (temp : List String)
      (vr : List String × List String),
      (∀ t ∈ temp, rank node < rank t) →
      rank node < fuel →
      (∀ x, x ∈ vr.1 ↔ x ∈ vr.2) →
      TopoFrom g [] vr.2 →
      (∀ x, x ∈ (visitAux g fuel node temp vr).1 ↔
        x ∈ (visitAux g fuel node temp vr).2) ∧
      TopoFrom g [] (visitAux g fuel node temp vr).2 ∧
      (∃ new, (visitAux g fuel node temp vr).2 = vr.2 ++ new ∧
        (∀ x, x ∈ (visitAux g fuel node temp vr).1 ↔ (x ∈ vr.1 ∨ x ∈ new))) ∧
      node ∈ (visitAux g fuel node temp vr).1 := by
  intro fuel
  induction fuel with
  | zero => intro node temp vr _ hfuel _ _; omega
  | succ fuel ih =>
    intro node temp vr htemp hfuel hvr htopo
    have hnt : node ∉ temp := fun h => absurd (htemp node h) (lt_irrefl _)
    by_cases hnv : node ∈ vr.1
    · have hres : visitAux g (fuel + 1) node temp vr = vr := by
        obtain ⟨v, r⟩ := vr
        simp only [visitAux]
        rw [if_neg hnt, if_pos hnv]
      rw [hres]
      exact ⟨hvr, htopo, ⟨[], by simp, fun x => by simp⟩, hnv⟩
    · have hfold : ∀ (ds : List String), (∀ d ∈ ds, d ∈ graphGet g node) →
          ∀ (vr0 : List String × List String),
          (∀ x, x ∈ vr0.1 ↔ x ∈ vr0.2) → TopoFrom g [] vr0.2 →
          (∀ x, x ∈ (ds.foldl
              (fun acc dep => visitAux g fuel dep (temp ++ [node]) acc) vr0).1 ↔
            x ∈ (ds.foldl
              (fun acc dep => visitAux g fuel dep (temp ++ [node]) acc) vr0).2) ∧
          TopoFrom g [] (ds.foldl
            (fun acc dep => visitAux g fuel dep (temp ++ [node]) acc) vr0).2 ∧
          (∃ new, (ds.foldl
              (fun acc dep => visitAux g fuel dep (temp ++ [node]) acc) vr0).2 =
                vr0.2 ++ new ∧
            (∀ x, x ∈ (ds.foldl
              (fun acc dep => visitAux g fuel dep (temp ++ [node]) acc) vr0).1 ↔
                (x ∈ vr0.1 ∨ x ∈ new))) ∧
          (∀ d ∈ ds, d ∈ (ds.foldl
            (fun acc dep => visitAux g fuel dep (temp ++ [node]) acc) vr0).1) := by
        intro ds
        induction ds with
        | nil =>
          intro _ vr0 h1 h2
          exact ⟨h1, h2, ⟨[], by simp, fun x => by simp⟩, by simp⟩
        | cons d ds ihds =>
          intro hsub vr0 h1 h2
          simp only [List.foldl_cons]
          have hd : d ∈ graphGet g node := hsub d (by simp)
          have hrankd : rank d < rank node := HR node d hd
          have htemp' : ∀ t ∈ temp ++ [node], rank d < rank t := by
            intro t ht
            rcases List.mem_append.mp ht with ht | ht
            · exact lt_trans hrankd (htemp t ht)
            · rw [List.mem_singleton.mp ht]; exact hrankd
          have hfuel' : rank d < fuel := by omega
          obtain ⟨m1, t1, ⟨new1, he1, hm1⟩, hd1⟩ :=
            ih d (temp ++ [node]) vr0 htemp' hfuel' h1 h2
          obtain ⟨m2, t2, ⟨new2, he2, hm2⟩, hds2⟩ :=
            ihds (fun d' hd' => hsub d' (by simp [hd'])) _ m1 t1
          refine ⟨m2, t2, ⟨new1 ++ new2, ?_, ?_⟩, ?_⟩
          · rw [he2, he1, List.append_assoc]
          · intro x
            rw [hm2 x, hm1 x, List.mem_append]
            tauto
          · intro d' hd'
            rcases List.mem_cons.mp hd' with rfl | hd''
            · rw [hm2 d']
              exact Or.inl hd1
            · exact hds2 d' hd''
      have hres : visitAux g (fuel + 1) node temp vr =
          (((graphGet g node).foldl
              (fun acc dep => visitAux g fuel dep (temp ++ [node]) acc) vr).1 ++
              [node],
           ((graphGet g node).foldl
              (fun acc dep => visitAux g fuel dep (temp ++ [node]) acc) vr).2 ++
              [node]) := by
        obtain ⟨v, r⟩ := vr
        simp only [visitAux]
        rw [if_neg hnt, if_neg hnv]
      obtain ⟨m, t, ⟨new, he, hm⟩, hall⟩ :=
        hfold (graphGet g node) (fun _ h => h) vr hvr htopo
      rw [hres]
      refine ⟨?_, ?_, ⟨new ++ [node], ?_, ?_⟩, ?_⟩
      · intro x
        simp only [List.mem_append, List.mem_singleton]
        rw [m x]
      · rw [TopoFrom_append]
        refine ⟨t, fun D hD => ?_⟩
        simp only [List.nil_append]
        exact (m D).mp (hall D hD)
      · rw [he, List.append_assoc]
      · intro x
        simp only [List.mem_append, List.mem_singleton]
        rw [hm x]
        tauto
      · simp

theorem order_fold_spec (g : List (String × List String)) (rank : String → Nat)
    (HR : ∀ a b, b ∈ graphGet g a → rank b < rank a) (fuel : Nat)
    (hf : ∀ x, rank x < fuel) :
    ∀ (fs : List (String × LatexFile)) (vr : List String × List String),
      (∀ x, x ∈ vr.1 ↔ x ∈ vr.2) → TopoFrom g [] vr.2 →
      (∀ x, x ∈ (fs.foldl (fun vr p =>
          if p.1 ∈ vr.1 then vr else visitAux g fuel p.1 [] vr) vr).1 ↔
        x ∈ (fs.foldl (fun vr p =>
          if p.1 ∈ vr.1 then vr else visitAux g fuel p.1 [] vr) vr).2) ∧
      TopoFrom g [] (fs.foldl (fun vr p =>
        if p.1 ∈ vr.1 then vr else visitAux g fuel p.1 [] vr) vr).2 ∧
      (∀ x ∈ vr.1, x ∈ (fs.foldl (fun vr p =>
        if p.1 ∈ vr.1 then vr else visitAux g fuel p.1 [] vr) vr).1) ∧
      (∀ p ∈ fs, p.1 ∈ (fs.foldl (fun vr p =>
        if p.1 ∈ vr.1 then vr else visitAux g fuel p.1 [] vr) vr).1) := by
  intro fs
  induction fs with
  | nil =>
    intro vr h1 h2
    exact ⟨h1, h2, fun x hx => hx, fun p hp => absurd hp (List.not_mem_nil p)⟩
  | cons q qs ih =>
    intro vr h1 h2
    simp only [List.foldl_cons]
    by_cases hq : q.1 ∈ vr.1
    · rw [if_pos hq]
      obtain ⟨m, t, hmono, hall⟩ := ih vr h1 h2
      refine ⟨m, t, hmono, ?_⟩
      intro p hp
      rcases List.mem_cons.mp hp with rfl | hp'
      · exact hmono p.1 hq
      · exact hall p hp'
    · rw [if_neg hq]
      obtain ⟨m1, t1, ⟨new1, _, hm1⟩, hq1⟩ :=
        visitAux_spec g rank HR fuel q.1 [] vr (by simp) (hf q.1) h1 h2
      obtain ⟨m, t, hmono, hall⟩ := ih _ m1 t1
      refine ⟨m, t, ?_, ?_⟩
      · intro x hx
        exact hmono x ((hm1 x).mpr (Or.inl hx))
      · intro p hp
        rcases List.mem_cons.mp hp with rfl | hp'
        · exact hmono p.1 hq1
        · exact hall p hp'

/-- C5: (general part) under an acyclicity witness — a rank function that
strictly decreases along every dependency edge, bounded by the file count —
every file appears in the compilation order, and for every edge `F -> D` of
the dependency graph the dependency `D` appears strictly before `F`; and
(scenario part) the analyzed two-file project with `main.tex` containing
`\input{defs}` and an existing `defs.tex` has the dependency edge
`main.tex -> defs.tex` and compilation order `defs.tex` before `main.tex`. -/
theorem compilation_order_topological :
    (∀ (files : List (String × LatexFile)) (g : List (String × List String))
        (rank : String → Nat),
      (∀ a b, b ∈ graphGet g a → rank b < rank a) →
      (∀ x, rank x ≤ files.length) →
      (∀ p ∈ files, p.1 ∈ determine_compilation_order files g) ∧
      (∀ p ∈ files, ∀ D ∈ graphGet g p.1,
        ∃ l1 l2, determine_compilation_order files g = l1 ++ p.1 :: l2 ∧
          D ∈ l1)) ∧
    ((analyze_project_pure scenarioInputs).map
      (fun st => (graphGet st.dependency_graph "main.tex",
        st.compilation_order)) =
      some (["defs.tex"], ["defs.tex", "main.tex"])) := by
  constructor
  · intro files g rank HR HB
    have hf : ∀ x, rank x < files.length + 1 := fun x => by
      have := HB x
      omega
    obtain ⟨m, t, _, hall⟩ :=
      order_fold_spec g rank HR (files.length + 1) hf files ([], [])
        (by simp) trivial
    constructor
    · intro p hp
      exact (m p.1).mp (hall p hp)
    · intro p hp D hD
      obtain ⟨l1, l2, heq, hpos⟩ :=
        TopoFrom_before g _ [] t p.1 ((m p.1).mp (hall p hp)) D hD
      refine ⟨l1, l2, heq, ?_⟩
      rcases hpos with h | h
      · cases h
      · exact h
  · decide

/-- Witness for C5 at the concrete two-node graph. -/
theorem compilation_order_topological_witness :
    (∀ a b, b ∈ graphGet graphW a → rankW b < rankW a) ∧
    (∀ x, rankW x ≤ filesW.length) ∧
    (∃ l1 l2, determine_compilation_order filesW graphW =
      l1 ++ "main.tex" :: l2 ∧ "defs.tex" ∈ l1) := by
  have h1 : ∀ a b, b ∈ graphGet graphW a → rankW b < rankW a := by
    intro a b hb
    by_cases ha1 : a = "main.tex"
    · subst ha1
      have hg : graphGet graphW "main.tex" = ["defs.tex"] := by decide
      rw [hg] at hb
      have : b = "defs.tex" := List.mem_singleton.mp hb
      subst this
      decide
    · by_cases ha2 : a = "defs.tex"
      · subst ha2
        have hg : graphGet graphW "defs.tex" = [] := by decide
        rw [hg] at hb
        cases hb
      · have hg : graphGet graphW a = [] := by
          unfold graphGet alistLookup graphW
          have e1 : (("main.tex" : String) == a) = false := by
            simp [ha1]
            exact fun h => ha1 h.symm
          have e2 : (("defs.tex" : String) == a) = false := by
            simp [ha2]
            exact fun h => ha2 h.symm
          simp [List.find?, e1, e2]
        rw [hg] at hb
        cases hb
  have h2 : ∀ x, rankW x ≤ filesW.length := by
    intro x
    by_cases hx : x = "defs.tex" <;> simp [rankW, hx, filesW]
  refine ⟨h1, h2, ?_⟩
  have := (compilation_order_topological.1 filesW graphW rankW h1 h2).2
    ("main.tex", { path := "main.tex", content := [] }) (by decide)
    "defs.tex" (by decide)
  exact this
